import Mathlib

/-!
# Verification of the Game-of-Life engine (`src/game`)

Shallow embedding of the simulation core of the repository: `LifeCell`
(`src/game/src/celulas.rs`) and `Grid` (`src/game/src/grid.rs`).

Modelling conventions:
* Rust `bool` becomes `Bool`; `u32`/`u64`/`usize` values become `ℕ`
  (the program never exercises wrap-around on these types; the one
  narrowing cast, `len() as u8` in `Grid::update`, is modelled
  faithfully as `% 256`).  The `i64` arithmetic of
  `get_neighbor_indices_for_cell` is modelled on `ℤ` with `Int.toNat`
  standing for the final `as usize` cast.
* `Vec<LifeCell>` becomes `List LifeCell`; the in-place field update
  `cell_grid[i].f = v` and method calls `self.cells[i].m()` become
  `List.modify`.  (Rust indexing panics when out of bounds, in which
  case the Lean `List.modify` is a no-op; the bounds invariant proved
  below shows the panic branch is never reached on constructed grids.)
  Indexing `alive_grid[**nidx]` in `update` is modelled by
  `List.getD _ _ false`; again the in-bounds theorem shows the default
  is never consulted.
* The purely graphical state of a cell (`rect`, `corners`,
  `alive_color`, `dead_color`: `f64` geometry and colours, where the
  colour is always the function of `alive` set by `make_live` /
  `make_dead`) is not part of the model; no claim mentions it.  The
  cells pushed by `create_cell_grid` differ only in that geometry, so
  the freshly pushed cells are identical in the model.
* `rayon`'s `par_iter` loops in `Grid::update` mutate each cell
  independently from the immutable snapshot, with a barrier between
  the phases; they are modelled by sequential `List.map` per phase.
* The thread rng `rng.gen::<f64>()` of `randomize` (a uniform draw in
  `[0,1)`) is modelled by an explicit stream `r : ℕ → ℚ` of draws,
  consumed in loop order (iteration `(x, y)` reads draw `x * H + y`);
  the `f64` comparison `draw <= live_probability` is exact rational
  comparison for the values the claims are about.
-/

/-- Model of `LifeCell` (src/game/src/celulas.rs), omitting the purely
graphical fields `rect`, `corners`, `alive_color`, `dead_color`. -/
structure LifeCell where
  alive : Bool
  neighbor_indices : List ℕ
  current_state : Bool
  next_state : Bool
  deriving Repr, DecidableEq

instance : Inhabited LifeCell := ⟨⟨false, [], false, false⟩⟩

namespace LifeCell

/-- `LifeCell::new` (the graphical arguments/fields are dropped). -/
def new (alive : Bool) : LifeCell :=
  { alive := alive
    neighbor_indices := []
    current_state := alive
    next_state := alive }

/-- `LifeCell::set_state`. -/
def set_state (c : LifeCell) (live : Bool) : LifeCell :=
  { c with alive := live, current_state := live, next_state := live }

/-- `LifeCell::make_live` (the colour write is graphical state, dropped). -/
def make_live (c : LifeCell) : LifeCell :=
  c.set_state true

/-- `LifeCell::make_dead` (the colour write is graphical state, dropped). -/
def make_dead (c : LifeCell) : LifeCell :=
  c.set_state false

/-- `LifeCell::needs_update`. -/
def needs_update (c : LifeCell) : Bool :=
  c.next_state != c.current_state

/-- `LifeCell::get_neighbor_indices`. -/
def get_neighbor_indices (c : LifeCell) : List ℕ :=
  c.neighbor_indices

/-- `LifeCell::prepare_update`.  Note the guard: when the cell is dead
and `live_neighbors < 3` the body is skipped and `next_state` keeps
its previous value. -/
def prepare_update (c : LifeCell) (live_neighbors : ℕ) : LifeCell :=
  if !(!c.current_state && decide (live_neighbors < 3)) then
    { c with next_state :=
        (c.current_state && decide (live_neighbors = 2)) || decide (live_neighbors = 3) }
  else
    c

/-- `LifeCell::update`. -/
def update (c : LifeCell) : LifeCell :=
  if c.needs_update then
    (if c.next_state then c.make_live else c.make_dead)
  else
    c

end LifeCell

/-- Model of `Grid` (src/game/src/grid.rs). -/
structure Grid where
  x_cells : ℕ
  y_cells : ℕ
  generation : ℕ
  cells : List LifeCell
  deriving Repr, DecidableEq

namespace Grid

/-- `Grid::get_neighbor_indices_for_cell`, with the `i64` arithmetic on
`ℤ` and the final `as usize` casts as `Int.toNat`; each `push` becomes
an append of a singleton, in source order. -/
def get_neighbor_indices_for_cell (x y x_cells y_cells : ℕ) : List ℕ :=
  let left_x : ℤ := (x : ℤ) - 1
  let right_x : ℤ := (x : ℤ) + 1
  let top_y : ℤ := (y : ℤ) - 1
  let bottom_y : ℤ := (y : ℤ) + 1
  (if left_x > -1 then [(left_x + ((y * x_cells : ℕ) : ℤ)).toNat] else []) ++
  (if left_x > -1 ∧ top_y > -1 then [(left_x + top_y * (x_cells : ℤ)).toNat] else []) ++
  (if top_y > -1 then [((x : ℤ) + top_y * (x_cells : ℤ)).toNat] else []) ++
  (if right_x < (x_cells : ℤ) ∧ top_y > -1 then [(right_x + top_y * (x_cells : ℤ)).toNat] else []) ++
  (if right_x < (x_cells : ℤ) then [(right_x + ((y * x_cells : ℕ) : ℤ)).toNat] else []) ++
  (if right_x < (x_cells : ℤ) ∧ bottom_y < (y_cells : ℤ) then [(right_x + bottom_y * (x_cells : ℤ)).toNat] else []) ++
  (if bottom_y < (y_cells : ℤ) then [((x : ℤ) + bottom_y * (x_cells : ℤ)).toNat] else []) ++
  (if left_x > -1 ∧ bottom_y < (y_cells : ℤ) then [(left_x + bottom_y * (x_cells : ℤ)).toNat] else [])

/-- `Grid::set_neighbors`: the nested `for x { for y }` loop writing
`cell_grid[x + y * x_cells].neighbor_indices`. -/
def set_neighbors (x_cells y_cells : ℕ) (cell_grid : List LifeCell) : List LifeCell :=
  (List.range x_cells).foldl
    (fun g x =>
      (List.range y_cells).foldl
        (fun g2 y =>
          List.modify
            (fun cell =>
              { cell with
                  neighbor_indices := get_neighbor_indices_for_cell x y x_cells y_cells })
            (x + y * x_cells) g2)
        g)
    cell_grid

/-- `Grid::create_cell_grid`: pushes `x_cells * y_cells` dead cells (in
the model the pushed cells are identical, their geometry being
dropped), then calls `set_neighbors`. -/
def create_cell_grid (x_cells y_cells : ℕ) : List LifeCell :=
  let base :=
    (List.range x_cells).foldl
      (fun acc _x =>
        (List.range y_cells).foldl (fun acc2 _y => acc2 ++ [LifeCell.new false]) acc)
      []
  set_neighbors x_cells y_cells base

/-- `Grid::new`. -/
def new (x_cells y_cells : ℕ) : Grid :=
  { x_cells := x_cells
    y_cells := y_cells
    generation := 0
    cells := create_cell_grid x_cells y_cells }

/-- `Grid::update`.  Phase 1 snapshots `alive`, phase 2 stages every
cell from the snapshot (the `len() as u8` narrowing is the `% 256`),
phase 3 commits; then the generation counter is bumped and returned. -/
def update (g : Grid) : Grid × ℕ :=
  let alive_grid := g.cells.map (fun cell => cell.alive)
  let staged := g.cells.map (fun cell =>
    let neighbor_idxs := cell.get_neighbor_indices
    let live_neighbors :=
      ((neighbor_idxs.filter (fun nidx => alive_grid.getD nidx false)).length) % 256
    cell.prepare_update live_neighbors)
  let committed := staged.map (fun cell => cell.update)
  let g' : Grid :=
    { g with cells := committed, generation := g.generation + 1 }
  (g', g'.generation)

/-- `Grid::reset`: the nested loop calling `make_dead` on
`cells[x + y * x_cells]`, then zeroing `generation`. -/
def reset (g : Grid) : Grid :=
  let cells' :=
    (List.range g.x_cells).foldl
      (fun gr x =>
        (List.range g.y_cells).foldl
          (fun gr2 y => List.modify LifeCell.make_dead (x + y * g.x_cells) gr2)
          gr)
      g.cells
  { g with cells := cells', generation := 0 }

/-- `Grid::randomize`: `reset`, then the nested loop drawing one
uniform value per iteration (draw `x * y_cells + y` of the stream `r`)
and calling `make_live` on `cells[x + y * x_cells]` when
`draw <= live_probability`. -/
def randomize (g : Grid) (r : ℕ → ℚ) (live_probability : ℚ) : Grid :=
  let g1 := g.reset
  let cells' :=
    (List.range g1.x_cells).foldl
      (fun gr x =>
        (List.range g1.y_cells).foldl
          (fun gr2 y =>
            if r (x * g1.y_cells + y) ≤ live_probability then
              List.modify LifeCell.make_live (x + y * g1.x_cells) gr2
            else
              gr2)
          gr)
      g1.cells
  { g1 with cells := cells' }

/-- Models external code invoking the public `LifeCell::make_live` on
`grid.cells[i]` (how a driver seeds a configuration cell by cell). -/
def make_live_at (g : Grid) (i : ℕ) : Grid :=
  { g with cells := List.modify LifeCell.make_live i g.cells }

/-- Models external code invoking the public `LifeCell::make_dead` on
`grid.cells[i]`. -/
def make_dead_at (g : Grid) (i : ℕ) : Grid :=
  { g with cells := List.modify LifeCell.make_dead i g.cells }

end Grid

/-- Grid states reachable through the public operations: construction
followed by any sequence of per-cell `make_live`/`make_dead`, `reset`,
`randomize` and `update`. -/
inductive Reachable : Grid → Prop
  | new (W H : ℕ) : Reachable (Grid.new W H)
  | make_live_at (g : Grid) (i : ℕ) : Reachable g → Reachable (g.make_live_at i)
  | make_dead_at (g : Grid) (i : ℕ) : Reachable g → Reachable (g.make_dead_at i)
  | reset (g : Grid) : Reachable g → Reachable g.reset
  | randomize (g : Grid) (r : ℕ → ℚ) (p : ℚ) : Reachable g → Reachable (g.randomize r p)
  | update (g : Grid) : Reachable g → Reachable (g.update).1

/-! ## Generic facts about the nested `for x { for y }` loops -/

section LoopLemmas

variable {α : Type}

/-- Any fold of per-index `List.modify` steps preserves the length. -/
theorem foldl_modify_length (ys : List ℕ) (f : ℕ → α → α) (idx : ℕ → ℕ) (l : List α) :
    (ys.foldl (fun g y => List.modify (f y) (idx y) g) l).length = l.length := by
  induction ys generalizing l with
  | nil => rfl
  | cons y ys ih => simp [List.foldl_cons, ih, List.length_modify]

/-- The `y`-loop at fixed column `x`: slot `i` is hit exactly when
`i % W = x` and `i / W < H`, and then by iteration `y = i / W`. -/
theorem inner_fold_getElem? (f : ℕ → α → α) (W x : ℕ) (hx : x < W) (H : ℕ)
    (l : List α) (i : ℕ) :
    ((List.range H).foldl (fun g2 y => List.modify (f y) (x + y * W) g2) l)[i]? =
      if x = i % W ∧ i / W < H then (l[i]?).map (f (i / W)) else l[i]? := by
  induction H generalizing l with
  | zero =>
    simp
  | succ H ih =>
    rw [show H + 1 = H.succ from rfl, List.range_succ, List.foldl_append]
    simp only [List.foldl_cons, List.foldl_nil]
    rw [List.getElem?_modify, ih]
    have hW : 0 < W := by omega
    by_cases h1 : x + H * W = i
    · have hx1 : i % W = x := by
        rw [← h1, Nat.add_mul_mod_self_right, Nat.mod_eq_of_lt hx]
      have hx2 : i / W = H := by
        rw [← h1, Nat.add_mul_div_right _ _ hW, Nat.div_eq_of_lt hx, Nat.zero_add]
      have hrw : (fun a => if x + H * W = i then f H a else a) = f H := by
        funext a
        rw [if_pos h1]
      rw [hrw, if_neg (by omega), if_pos (by omega), hx2]
      cases l[i]? <;> rfl
    · have hrw : (fun a => if x + H * W = i then f H a else a) = fun a => a := by
        funext a
        rw [if_neg h1]
      rw [hrw]
      have hiff : (x = i % W ∧ i / W < H) ↔ (x = i % W ∧ i / W < H.succ) := by
        constructor
        · rintro ⟨ha, hb⟩
          exact ⟨ha, by omega⟩
        · rintro ⟨ha, hb⟩
          refine ⟨ha, ?_⟩
          rcases Nat.lt_or_ge (i / W) H with h | h
          · exact h
          · exfalso
            have h4 : i / W = H := by omega
            have hdm := Nat.div_add_mod i W
            rw [Nat.mul_comm, h4] at hdm
            apply h1
            omega
      by_cases h2 : x = i % W ∧ i / W < H
      · rw [if_pos h2, if_pos (hiff.mp h2)]
        cases l[i]? <;> rfl
      · rw [if_neg h2, if_neg (fun hc => h2 (hiff.mpr hc))]
        cases l[i]? <;> rfl

/-- The full nested loop over `x ∈ [0, X)`, `y ∈ [0, H)`, writing slot
`x + y * W` with `f x y`. -/
theorem outer_fold_getElem? (f : ℕ → ℕ → α → α) (W H : ℕ) (X : ℕ) (hX : X ≤ W)
    (l : List α) (i : ℕ) :
    ((List.range X).foldl
        (fun g x => (List.range H).foldl (fun g2 y => List.modify (f x y) (x + y * W) g2) g)
        l)[i]? =
      if i % W < X ∧ i / W < H then (l[i]?).map (f (i % W) (i / W)) else l[i]? := by
  induction X generalizing l with
  | zero => simp
  | succ X ih =>
    rw [show X + 1 = X.succ from rfl, List.range_succ, List.foldl_append]
    simp only [List.foldl_cons, List.foldl_nil]
    rw [inner_fold_getElem? (f X) W X (by omega) H _ i]
    by_cases h1 : X = i % W ∧ i / W < H
    · rw [if_pos h1, ih (by omega), if_neg (by omega), if_pos (by omega), ← h1.1]
    · rw [if_neg h1, ih (by omega)]
      by_cases h2 : i % W < X ∧ i / W < H
      · rw [if_pos h2, if_pos (by omega)]
      · rw [if_neg h2, if_neg (by omega)]

/-- The loop bound actually used everywhere: `X = W`.  Slot `i` is
written (once) iff `i < W * H`. -/
theorem nested_fold_getElem? (f : ℕ → ℕ → α → α) (W H : ℕ) (l : List α) (i : ℕ) :
    ((List.range W).foldl
        (fun g x => (List.range H).foldl (fun g2 y => List.modify (f x y) (x + y * W) g2) g)
        l)[i]? =
      if i < W * H then (l[i]?).map (f (i % W) (i / W)) else l[i]? := by
  rw [outer_fold_getElem? f W H W (le_refl W) l i]
  by_cases hW : 0 < W
  · have h1 : i % W < W := Nat.mod_lt _ hW
    by_cases h2 : i < W * H
    · rw [if_pos ⟨h1, Nat.div_lt_of_lt_mul h2⟩, if_pos h2]
    · have h3 : ¬ i / W < H := by
        intro hc
        apply h2
        have hdm := Nat.div_add_mod i W
        have hle : W * (i / W) + W ≤ W * H := by
          have := Nat.mul_le_mul_left W (Nat.succ_le_of_lt hc)
          simpa [Nat.mul_succ] using this
        omega
      rw [if_neg (by omega), if_neg h2]
  · have hW0 : W = 0 := by omega
    subst hW0
    rw [if_neg (by omega), if_neg (by omega)]

theorem nested_fold_length (f : ℕ → ℕ → α → α) (W H : ℕ) (l : List α) :
    ((List.range W).foldl
        (fun g x => (List.range H).foldl (fun g2 y => List.modify (f x y) (x + y * W) g2) g)
        l).length = l.length := by
  induction (List.range W) generalizing l with
  | nil => rfl
  | cons x xs ih => simp only [List.foldl_cons, ih, foldl_modify_length]

/-- The cell-allocation loop of `create_cell_grid` just appends
`W * H` copies of the (model) fresh cell. -/
theorem foldl_append_replicate (c : α) (n : ℕ) (acc : List α) (l : List β) :
    l.foldl (fun a _ => a ++ List.replicate n c) acc = acc ++ List.replicate (l.length * n) c := by
  induction l generalizing acc with
  | nil => simp
  | cons b l ih =>
    simp only [List.foldl_cons, ih, List.length_cons]
    rw [List.append_assoc, ← List.replicate_add]
    congr 2
    ring

theorem foldl_push_replicate (c : α) (n : ℕ) (acc : List α) :
    (List.range n).foldl (fun a _ => a ++ [c]) acc = acc ++ List.replicate n c := by
  have h := foldl_append_replicate c 1 acc (List.range n)
  simpa using h

end LoopLemmas

/-! ## A subtraction-free normal form for the neighbour list -/

namespace Grid

/-- ℕ-arithmetic normal form of `get_neighbor_indices_for_cell`
(the `i64` guards and casts resolved; proved equal below). -/
def nbrList (x y W H : ℕ) : List ℕ :=
  (if 1 ≤ x then [(x - 1) + y * W] else []) ++
  (if 1 ≤ x ∧ 1 ≤ y then [(x - 1) + (y - 1) * W] else []) ++
  (if 1 ≤ y then [x + (y - 1) * W] else []) ++
  (if x + 1 < W ∧ 1 ≤ y then [(x + 1) + (y - 1) * W] else []) ++
  (if x + 1 < W then [(x + 1) + y * W] else []) ++
  (if x + 1 < W ∧ y + 1 < H then [(x + 1) + (y + 1) * W] else []) ++
  (if y + 1 < H then [x + (y + 1) * W] else []) ++
  (if 1 ≤ x ∧ y + 1 < H then [(x - 1) + (y + 1) * W] else [])

theorem ite_toNat_singleton {c d : Prop} [Decidable c] [Decidable d] (hcd : c ↔ d)
    (v : ℤ) (n : ℕ) (hv : d → v.toNat = n) :
    (if c then ([v.toNat] : List ℕ) else []) = (if d then [n] else []) := by
  by_cases h : d
  · rw [if_pos (hcd.mpr h), if_pos h, hv h]
  · rw [if_neg (fun hc => h (hcd.mp hc)), if_neg h]

theorem toNat_encode (u v : ℤ) (un vn W : ℕ) (hu : u = (un : ℤ)) (hv : v = (vn : ℤ)) :
    (u + v * (W : ℤ)).toNat = un + vn * W := by
  subst hu hv
  rw [← Nat.cast_mul, ← Nat.cast_add, Int.toNat_natCast]

theorem get_neighbor_indices_eq_nbrList (x y W H : ℕ) :
    get_neighbor_indices_for_cell x y W H = nbrList x y W H := by
  have e1 : (if ((x : ℤ) - 1 > -1) then [((x : ℤ) - 1 + ((y * W : ℕ) : ℤ)).toNat] else []) =
      (if 1 ≤ x then [(x - 1) + y * W] else []) :=
    ite_toNat_singleton (by omega) _ _ (fun h => by omega)
  have e2 : (if ((x : ℤ) - 1 > -1 ∧ (y : ℤ) - 1 > -1) then
        [((x : ℤ) - 1 + ((y : ℤ) - 1) * (W : ℤ)).toNat] else []) =
      (if 1 ≤ x ∧ 1 ≤ y then [(x - 1) + (y - 1) * W] else []) :=
    ite_toNat_singleton (by omega) _ _
      (fun h => toNat_encode _ _ (x - 1) (y - 1) W (by omega) (by omega))
  have e3 : (if ((y : ℤ) - 1 > -1) then [((x : ℤ) + ((y : ℤ) - 1) * (W : ℤ)).toNat] else []) =
      (if 1 ≤ y then [x + (y - 1) * W] else []) :=
    ite_toNat_singleton (by omega) _ _
      (fun h => toNat_encode _ _ x (y - 1) W (by omega) (by omega))
  have e4 : (if ((x : ℤ) + 1 < (W : ℤ) ∧ (y : ℤ) - 1 > -1) then
        [((x : ℤ) + 1 + ((y : ℤ) - 1) * (W : ℤ)).toNat] else []) =
      (if x + 1 < W ∧ 1 ≤ y then [(x + 1) + (y - 1) * W] else []) :=
    ite_toNat_singleton (by omega) _ _
      (fun h => toNat_encode _ _ (x + 1) (y - 1) W (by omega) (by omega))
  have e5 : (if ((x : ℤ) + 1 < (W : ℤ)) then [((x : ℤ) + 1 + ((y * W : ℕ) : ℤ)).toNat] else []) =
      (if x + 1 < W then [(x + 1) + y * W] else []) :=
    ite_toNat_singleton (by omega) _ _ (fun h => by omega)
  have e6 : (if ((x : ℤ) + 1 < (W : ℤ) ∧ (y : ℤ) + 1 < (H : ℤ)) then
        [((x : ℤ) + 1 + ((y : ℤ) + 1) * (W : ℤ)).toNat] else []) =
      (if x + 1 < W ∧ y + 1 < H then [(x + 1) + (y + 1) * W] else []) :=
    ite_toNat_singleton (by omega) _ _
      (fun h => toNat_encode _ _ (x + 1) (y + 1) W (by omega) (by omega))
  have e7 : (if ((y : ℤ) + 1 < (H : ℤ)) then [((x : ℤ) + ((y : ℤ) + 1) * (W : ℤ)).toNat] else []) =
      (if y + 1 < H then [x + (y + 1) * W] else []) :=
    ite_toNat_singleton (by omega) _ _
      (fun h => toNat_encode _ _ x (y + 1) W (by omega) (by omega))
  have e8 : (if ((x : ℤ) - 1 > -1 ∧ (y : ℤ) + 1 < (H : ℤ)) then
        [((x : ℤ) - 1 + ((y : ℤ) + 1) * (W : ℤ)).toNat] else []) =
      (if 1 ≤ x ∧ y + 1 < H then [(x - 1) + (y + 1) * W] else []) :=
    ite_toNat_singleton (by omega) _ _
      (fun h => toNat_encode _ _ (x - 1) (y + 1) W (by omega) (by omega))
  show (_ ++ _ ++ _ ++ _ ++ _ ++ _ ++ _ ++ _ : List ℕ) = _
  rw [nbrList, e1, e2, e3, e4, e5, e6, e7, e8]

end Grid

/-! ## Index encoding `(x, y) ↦ x + y * W` and neighbour-list facts -/

section Encoding

theorem encode_mod (x y W : ℕ) (hx : x < W) : (x + y * W) % W = x := by
  rw [Nat.add_mul_mod_self_right, Nat.mod_eq_of_lt hx]

theorem encode_div (x y W : ℕ) (hx : x < W) : (x + y * W) / W = y := by
  rw [Nat.add_mul_div_right _ _ (by omega : 0 < W), Nat.div_eq_of_lt hx, Nat.zero_add]

theorem encode_lt (x y W H : ℕ) (hx : x < W) (hy : y < H) : x + y * W < W * H := by
  have h1 : (y + 1) * W ≤ H * W := Nat.mul_le_mul_right W hy
  have h2 : (y + 1) * W = y * W + W := by ring
  have h3 : H * W = W * H := Nat.mul_comm H W
  omega

theorem encode_inj (x1 y1 x2 y2 W : ℕ) (h1 : x1 < W) (h2 : x2 < W) :
    x1 + y1 * W = x2 + y2 * W ↔ x1 = x2 ∧ y1 = y2 := by
  constructor
  · intro h
    have hm : x1 = x2 := by
      have hc := congrArg (· % W) h
      simpa [encode_mod _ _ _ h1, encode_mod _ _ _ h2] using hc
    refine ⟨hm, ?_⟩
    subst hm
    have hmul : y1 * W = y2 * W := by omega
    exact Nat.eq_of_mul_eq_mul_right (by omega) hmul
  · rintro ⟨rfl, rfl⟩
    rfl

theorem decode_encode (i W : ℕ) : i % W + (i / W) * W = i := by
  rw [Nat.mul_comm]
  exact Nat.mod_add_div i W

theorem decode_lt_left (i W : ℕ) (hW : 0 < W) : i % W < W := Nat.mod_lt _ hW

theorem decode_lt_right (i W H : ℕ) (hi : i < W * H) : i / W < H :=
  Nat.div_lt_of_lt_mul hi

end Encoding

namespace Grid

theorem mem_ite_singleton {c : Prop} [Decidable c] (v a : ℕ) :
    a ∈ (if c then [v] else []) ↔ c ∧ a = v := by
  split_ifs with h <;> simp_all

theorem map_ite_singleton {β : Type} {c : Prop} [Decidable c] (f : ℕ → β) (v : ℕ) (w : β)
    (hv : c → f v = w) :
    (if c then [v] else []).map f = if c then [w] else [] := by
  by_cases h : c
  · simp [h, hv h]
  · simp [h]

theorem length_ite_singleton {c : Prop} [Decidable c] (v : ℕ) :
    (if c then ([v] : List ℕ) else []).length = if c then 1 else 0 := by
  split_ifs <;> rfl

theorem filter_ite_singleton_length (p : ℕ → Bool) {c : Prop} [Decidable c] (v : ℕ) :
    ((if c then [v] else []).filter p).length = if c ∧ p v = true then 1 else 0 := by
  split_ifs with h1 h2 h3 <;> simp_all

/-- Membership in the neighbour list: exactly the in-range positions at
Chebyshev distance 1 (coordinates differing by at most one, not both
equal). -/
theorem mem_nbrList (x y W H j : ℕ) (hx : x < W) (hy : y < H) :
    j ∈ nbrList x y W H ↔
      ∃ x' y', x' < W ∧ y' < H ∧ j = x' + y' * W ∧ (x' ≠ x ∨ y' ≠ y) ∧
        x' ≤ x + 1 ∧ x ≤ x' + 1 ∧ y' ≤ y + 1 ∧ y ≤ y' + 1 := by
  simp only [nbrList, List.mem_append, mem_ite_singleton]
  constructor
  · rintro (((((((⟨hc, rfl⟩ | ⟨hc, rfl⟩) | ⟨hc, rfl⟩) | ⟨hc, rfl⟩) | ⟨hc, rfl⟩) |
        ⟨hc, rfl⟩) | ⟨hc, rfl⟩) | ⟨hc, rfl⟩)
    · exact ⟨x - 1, y, by omega, hy, rfl, Or.inl (by omega), by omega, by omega, by omega, by omega⟩
    · exact ⟨x - 1, y - 1, by omega, by omega, rfl, Or.inl (by omega), by omega, by omega, by omega, by omega⟩
    · exact ⟨x, y - 1, hx, by omega, rfl, Or.inr (by omega), by omega, by omega, by omega, by omega⟩
    · exact ⟨x + 1, y - 1, by omega, by omega, rfl, Or.inl (by omega), by omega, by omega, by omega, by omega⟩
    · exact ⟨x + 1, y, by omega, hy, rfl, Or.inl (by omega), by omega, by omega, by omega, by omega⟩
    · exact ⟨x + 1, y + 1, by omega, by omega, rfl, Or.inl (by omega), by omega, by omega, by omega, by omega⟩
    · exact ⟨x, y + 1, hx, by omega, rfl, Or.inr (by omega), by omega, by omega, by omega, by omega⟩
    · exact ⟨x - 1, y + 1, by omega, by omega, rfl, Or.inl (by omega), by omega, by omega, by omega, by omega⟩
  · rintro ⟨x', y', hx', hy', rfl, hne, b1, b2, b3, b4⟩
    have hx3 : x' + 1 = x ∨ x' = x ∨ x' = x + 1 := by omega
    have hy3 : y' + 1 = y ∨ y' = y ∨ y' = y + 1 := by omega
    rcases hx3 with h | h | h <;> rcases hy3 with h' | h' | h'
    · have ex : x' = x - 1 := by omega
      have ey : y' = y - 1 := by omega
      subst ex ey
      refine Or.inl (Or.inl (Or.inl (Or.inl (Or.inl (Or.inl (Or.inr ⟨⟨by omega, by omega⟩, rfl⟩))))))
    · have ex : x' = x - 1 := by omega
      subst ex h'
      exact Or.inl (Or.inl (Or.inl (Or.inl (Or.inl (Or.inl (Or.inl ⟨by omega, rfl⟩))))))
    · have ex : x' = x - 1 := by omega
      have ey : y' = y + 1 := h'
      subst ex ey
      exact Or.inr ⟨⟨by omega, by omega⟩, rfl⟩
    · have ey : y' = y - 1 := by omega
      subst h ey
      exact Or.inl (Or.inl (Or.inl (Or.inl (Or.inl (Or.inr ⟨by omega, rfl⟩)))))
    · exfalso
      subst h h'
      rcases hne with hne | hne <;> omega
    · subst h h'
      exact Or.inl (Or.inr ⟨by omega, rfl⟩)
    · have ex : x' = x + 1 := h
      have ey : y' = y - 1 := by omega
      subst ex ey
      exact Or.inl (Or.inl (Or.inl (Or.inl (Or.inr ⟨⟨by omega, by omega⟩, rfl⟩))))
    · subst h h'
      exact Or.inl (Or.inl (Or.inl (Or.inr ⟨by omega, rfl⟩)))
    · subst h h'
      exact Or.inl (Or.inl (Or.inr ⟨⟨by omega, by omega⟩, rfl⟩))

end Grid

namespace Grid

/-- Coordinate form of membership, for an index `j` below `W * H`. -/
theorem mem_nbrList_coord (x y W H j : ℕ) (hx : x < W) (hy : y < H) (hj : j < W * H) :
    j ∈ nbrList x y W H ↔
      (j ≠ x + y * W ∧ j % W ≤ x + 1 ∧ x ≤ j % W + 1 ∧ j / W ≤ y + 1 ∧ y ≤ j / W + 1) := by
  rw [mem_nbrList x y W H j hx hy]
  have hW : 0 < W := by
    rcases Nat.eq_zero_or_pos W with h | h
    · subst h; omega
    · exact h
  constructor
  · rintro ⟨x', y', hx', hy', rfl, hne, b1, b2, b3, b4⟩
    rw [encode_mod _ _ _ hx', encode_div _ _ _ hx']
    refine ⟨?_, b1, b2, b3, b4⟩
    intro hc
    rw [encode_inj _ _ _ _ _ hx' hx] at hc
    rcases hne with hne | hne
    · exact hne hc.1
    · exact hne hc.2
  · rintro ⟨hne, b1, b2, b3, b4⟩
    refine ⟨j % W, j / W, decode_lt_left j W hW, decode_lt_right j W H hj, (decode_encode j W).symm,
      ?_, b1, b2, b3, b4⟩
    by_contra hc
    push_neg at hc
    apply hne
    rw [← decode_encode j W, hc.1, hc.2]

/-- Every neighbour index is a valid cell index. -/
theorem mem_nbrList_lt (x y W H j : ℕ) (hx : x < W) (hy : y < H)
    (hj : j ∈ nbrList x y W H) : j < W * H := by
  rw [mem_nbrList x y W H j hx hy] at hj
  obtain ⟨x', y', hx', hy', rfl, -⟩ := hj
  exact encode_lt x' y' W H hx' hy'

/-- The length of the neighbour list as a sum of boundary indicators. -/
theorem nbrList_length (x y W H : ℕ) :
    (nbrList x y W H).length =
      (if 1 ≤ x then 1 else 0) + (if 1 ≤ x ∧ 1 ≤ y then 1 else 0) +
      (if 1 ≤ y then 1 else 0) + (if x + 1 < W ∧ 1 ≤ y then 1 else 0) +
      (if x + 1 < W then 1 else 0) + (if x + 1 < W ∧ y + 1 < H then 1 else 0) +
      (if y + 1 < H then 1 else 0) + (if 1 ≤ x ∧ y + 1 < H then 1 else 0) := by
  simp only [nbrList, List.length_append, length_ite_singleton]

theorem nbrList_length_le_eight (x y W H : ℕ) : (nbrList x y W H).length ≤ 8 := by
  rw [nbrList_length]
  have h1 : (if 1 ≤ x then 1 else 0) ≤ 1 := by split_ifs <;> omega
  have h2 : (if 1 ≤ x ∧ 1 ≤ y then 1 else 0) ≤ 1 := by split_ifs <;> omega
  have h3 : (if 1 ≤ y then 1 else 0) ≤ 1 := by split_ifs <;> omega
  have h4 : (if x + 1 < W ∧ 1 ≤ y then 1 else 0) ≤ 1 := by split_ifs <;> omega
  have h5 : (if x + 1 < W then 1 else 0) ≤ 1 := by split_ifs <;> omega
  have h6 : (if x + 1 < W ∧ y + 1 < H then 1 else 0) ≤ 1 := by split_ifs <;> omega
  have h7 : (if y + 1 < H then 1 else 0) ≤ 1 := by split_ifs <;> omega
  have h8 : (if 1 ≤ x ∧ y + 1 < H then 1 else 0) ≤ 1 := by split_ifs <;> omega
  omega

/-- The staged live-neighbour count, written over the 8 guarded
entries of the neighbour list. -/
theorem nbrList_filter_length (x y W H : ℕ) (p : ℕ → Bool) :
    ((nbrList x y W H).filter p).length =
      (if 1 ≤ x ∧ p ((x - 1) + y * W) = true then 1 else 0) +
      (if (1 ≤ x ∧ 1 ≤ y) ∧ p ((x - 1) + (y - 1) * W) = true then 1 else 0) +
      (if 1 ≤ y ∧ p (x + (y - 1) * W) = true then 1 else 0) +
      (if (x + 1 < W ∧ 1 ≤ y) ∧ p ((x + 1) + (y - 1) * W) = true then 1 else 0) +
      (if x + 1 < W ∧ p ((x + 1) + y * W) = true then 1 else 0) +
      (if (x + 1 < W ∧ y + 1 < H) ∧ p ((x + 1) + (y + 1) * W) = true then 1 else 0) +
      (if y + 1 < H ∧ p (x + (y + 1) * W) = true then 1 else 0) +
      (if (1 ≤ x ∧ y + 1 < H) ∧ p ((x - 1) + (y + 1) * W) = true then 1 else 0) := by
  simp only [nbrList, List.filter_append, List.length_append, filter_ite_singleton_length]

end Grid

namespace Grid

/-- The neighbour list decoded to coordinate pairs. -/
theorem nbrList_map_decode (x y W H : ℕ) (hx : x < W) (hy : y < H) :
    (nbrList x y W H).map (fun j => (j % W, j / W)) =
      (if 1 ≤ x then [(x - 1, y)] else []) ++
      (if 1 ≤ x ∧ 1 ≤ y then [(x - 1, y - 1)] else []) ++
      (if 1 ≤ y then [(x, y - 1)] else []) ++
      (if x + 1 < W ∧ 1 ≤ y then [(x + 1, y - 1)] else []) ++
      (if x + 1 < W then [(x + 1, y)] else []) ++
      (if x + 1 < W ∧ y + 1 < H then [(x + 1, y + 1)] else []) ++
      (if y + 1 < H then [(x, y + 1)] else []) ++
      (if 1 ≤ x ∧ y + 1 < H then [(x - 1, y + 1)] else []) := by
  simp only [nbrList, List.map_append]
  rw [map_ite_singleton _ _ _ (fun h => by rw [encode_mod _ _ _ (by omega), encode_div _ _ _ (by omega)]),
    map_ite_singleton _ _ _ (fun h => by rw [encode_mod _ _ _ (by omega), encode_div _ _ _ (by omega)]),
    map_ite_singleton _ _ _ (fun h => by rw [encode_mod _ _ _ hx, encode_div _ _ _ hx]),
    map_ite_singleton _ _ _ (fun h => by rw [encode_mod _ _ _ (by omega), encode_div _ _ _ (by omega)]),
    map_ite_singleton _ _ _ (fun h => by rw [encode_mod _ _ _ (by omega), encode_div _ _ _ (by omega)]),
    map_ite_singleton _ _ _ (fun h => by rw [encode_mod _ _ _ (by omega), encode_div _ _ _ (by omega)]),
    map_ite_singleton _ _ _ (fun h => by rw [encode_mod _ _ _ hx, encode_div _ _ _ hx]),
    map_ite_singleton _ _ _ (fun h => by rw [encode_mod _ _ _ (by omega), encode_div _ _ _ (by omega)])]

/-- The neighbour list contains no duplicates. -/
theorem nbrList_nodup (x y W H : ℕ) (hx : x < W) (hy : y < H) :
    (nbrList x y W H).Nodup := by
  apply List.Nodup.of_map (fun j => (j % W, j / W))
  rw [nbrList_map_decode x y W H hx hy]
  by_cases h1 : 1 ≤ x <;> by_cases h2 : x + 1 < W <;>
    by_cases h3 : 1 ≤ y <;> by_cases h4 : y + 1 < H <;>
    simp [h1, h2, h3, h4, List.nodup_cons, Prod.ext_iff] <;> omega

/-- A cell never lists itself as its own neighbour. -/
theorem self_not_mem_nbrList (x y W H : ℕ) (hx : x < W) (hy : y < H) :
    x + y * W ∉ nbrList x y W H := by
  intro h
  rw [mem_nbrList x y W H _ hx hy] at h
  obtain ⟨x', y', hx', hy', heq, hne, -⟩ := h
  rw [encode_inj x y x' y' W hx hx'] at heq
  rcases hne with hne | hne
  · exact hne heq.1.symm
  · exact hne heq.2.symm

/-- Corner position, formalizing the spec's "cell at a corner". -/
def IsCornerPos (W H x y : ℕ) : Prop :=
  (x = 0 ∨ x = W - 1) ∧ (y = 0 ∨ y = H - 1)

/-- Non-corner boundary position, the spec's "non-corner edge cell". -/
def IsEdgePos (W H x y : ℕ) : Prop :=
  (x = 0 ∨ x = W - 1 ∨ y = 0 ∨ y = H - 1) ∧ ¬ IsCornerPos W H x y

/-- Interior position: not on the boundary at all. -/
def IsInteriorPos (W H x y : ℕ) : Prop :=
  ¬ (x = 0 ∨ x = W - 1 ∨ y = 0 ∨ y = H - 1)

theorem nbrList_length_corner (x y W H : ℕ) (hW : 2 ≤ W) (hH : 2 ≤ H)
    (hx : x < W) (hy : y < H) (hc : IsCornerPos W H x y) :
    (nbrList x y W H).length = 3 := by
  rw [nbrList_length]
  obtain ⟨hcx | hcx, hcy | hcy⟩ := hc <;> subst hcx hcy
  · have f1 : ¬ 1 ≤ (0 : ℕ) := by omega
    have f2 : 0 + 1 < W := by omega
    have f4 : 0 + 1 < H := by omega
    simp [f1, f2, f4]
  · have f1 : ¬ 1 ≤ (0 : ℕ) := by omega
    have f2 : 0 + 1 < W := by omega
    have f3 : 1 ≤ H - 1 := by omega
    have f4 : ¬ (H - 1) + 1 < H := by omega
    simp [f1, f2, f3, f4]
  · have f1 : 1 ≤ W - 1 := by omega
    have f2 : ¬ (W - 1) + 1 < W := by omega
    have f3 : ¬ 1 ≤ (0 : ℕ) := by omega
    have f4 : 0 + 1 < H := by omega
    simp [f1, f2, f3, f4]
  · have f1 : 1 ≤ W - 1 := by omega
    have f2 : ¬ (W - 1) + 1 < W := by omega
    have f3 : 1 ≤ H - 1 := by omega
    have f4 : ¬ (H - 1) + 1 < H := by omega
    simp [f1, f2, f3, f4]

theorem nbrList_length_edge (x y W H : ℕ) (hW : 2 ≤ W) (hH : 2 ≤ H)
    (hx : x < W) (hy : y < H) (he : IsEdgePos W H x y) :
    (nbrList x y W H).length = 5 := by
  obtain ⟨hb, hnc⟩ := he
  rw [IsCornerPos] at hnc
  rw [nbrList_length]
  rcases hb with hb | hb | hb | hb
  · subst hb
    have f1 : ¬ 1 ≤ (0 : ℕ) := by omega
    have f2 : 0 + 1 < W := by omega
    have f3 : 1 ≤ y := by omega
    have f4 : y + 1 < H := by omega
    simp [f1, f2, f3, f4]
  · subst hb
    have f1 : 1 ≤ W - 1 := by omega
    have f2 : ¬ (W - 1) + 1 < W := by omega
    have f3 : 1 ≤ y := by omega
    have f4 : y + 1 < H := by omega
    simp [f1, f2, f3, f4]
  · subst hb
    have f1 : 1 ≤ x := by omega
    have f2 : x + 1 < W := by omega
    have f3 : ¬ 1 ≤ (0 : ℕ) := by omega
    have f4 : 0 + 1 < H := by omega
    simp [f1, f2, f3, f4]
  · subst hb
    have f1 : 1 ≤ x := by omega
    have f2 : x + 1 < W := by omega
    have f3 : 1 ≤ H - 1 := by omega
    have f4 : ¬ (H - 1) + 1 < H := by omega
    simp [f1, f2, f3, f4]

theorem nbrList_length_interior (x y W H : ℕ)
    (hx : x < W) (hy : y < H) (hi : IsInteriorPos W H x y) :
    (nbrList x y W H).length = 8 := by
  rw [IsInteriorPos] at hi
  rw [nbrList_length]
  have f1 : 1 ≤ x := by omega
  have f2 : x + 1 < W := by omega
  have f3 : 1 ≤ y := by omega
  have f4 : y + 1 < H := by omega
  simp [f1, f2, f3, f4]

end Grid

/-! ## Cell-level transition facts -/

/-- The standard Game-of-Life rule exactly as the spec words it: alive
afterwards iff (alive with exactly 2 or 3 live neighbours) or (dead
with exactly 3 live neighbours).  This is the *spec-side* definition,
to be compared with what the code computes. -/
def specRule (alive : Bool) (liveNeighbors : ℕ) : Bool :=
  (alive && (decide (liveNeighbors = 2) || decide (liveNeighbors = 3))) ||
  (!alive && decide (liveNeighbors = 3))

namespace LifeCell

theorem prepare_update_preserves (c : LifeCell) (n : ℕ) :
    (c.prepare_update n).alive = c.alive ∧
    (c.prepare_update n).current_state = c.current_state ∧
    (c.prepare_update n).neighbor_indices = c.neighbor_indices := by
  rw [prepare_update]
  split <;> exact ⟨rfl, rfl, rfl⟩

/-- On a cell whose staged state agrees with its committed state (the
reachable situation), `prepare_update` leaves exactly the spec rule in
`next_state`. -/
theorem prepare_update_next_of_inv (c : LifeCell) (n : ℕ)
    (h : c.next_state = c.current_state) :
    (c.prepare_update n).next_state = specRule c.current_state n := by
  obtain ⟨a, nb, cur, nxt⟩ := c
  simp only at h
  subst h
  rw [prepare_update, specRule]
  cases nxt
  · by_cases hn3 : n < 3
    · rw [if_neg (by simp [hn3])]
      have h3 : ¬ n = 3 := by omega
      simp [h3]
    · rw [if_pos (by simp [hn3])]
      simp
  · rw [if_pos (by simp)]
    simp

/-- Committing on a cell whose `alive` agrees with `current_state`
moves `next_state` into all three fields, and keeps the topology. -/
theorem update_of_agree (c : LifeCell) (h : c.alive = c.current_state) :
    (c.update).alive = c.next_state ∧
    (c.update).current_state = c.next_state ∧
    (c.update).next_state = c.next_state ∧
    (c.update).neighbor_indices = c.neighbor_indices := by
  obtain ⟨a, nb, cur, nxt⟩ := c
  simp only at h
  subst h
  cases a <;> cases nxt <;>
    simp [update, needs_update, make_live, make_dead, set_state]

/-- One full staged transition of a single cell inside `Grid::update`,
starting from a reachable cell state. -/
theorem cell_step (c : LifeCell) (n : ℕ)
    (h1 : c.alive = c.current_state) (h2 : c.next_state = c.current_state) :
    ((c.prepare_update n).update).alive = specRule c.current_state n ∧
    ((c.prepare_update n).update).current_state = specRule c.current_state n ∧
    ((c.prepare_update n).update).next_state = specRule c.current_state n ∧
    ((c.prepare_update n).update).neighbor_indices = c.neighbor_indices := by
  obtain ⟨hp1, hp2, hp3⟩ := prepare_update_preserves c n
  have hagree : (c.prepare_update n).alive = (c.prepare_update n).current_state := by
    rw [hp1, hp2, h1]
  obtain ⟨hu1, hu2, hu3, hu4⟩ := update_of_agree _ hagree
  have hnext : (c.prepare_update n).next_state = specRule c.current_state n :=
    prepare_update_next_of_inv c n h2
  exact ⟨hu1.trans hnext, hu2.trans hnext, hu3.trans hnext, hu4.trans hp3⟩

/-- Committing always restores the three-way agreement, whatever the
staged value was (given the entry agreement `alive = current`). -/
theorem update_restores_inv (c : LifeCell) (h : c.alive = c.current_state) :
    (c.update).alive = (c.update).current_state ∧
    (c.update).next_state = (c.update).current_state := by
  obtain ⟨hu1, hu2, hu3, -⟩ := update_of_agree c h
  exact ⟨hu1.trans hu2.symm, hu3.trans hu2.symm⟩

theorem make_live_fields (c : LifeCell) :
    (c.make_live).alive = true ∧ (c.make_live).current_state = true ∧
    (c.make_live).next_state = true ∧ (c.make_live).neighbor_indices = c.neighbor_indices :=
  ⟨rfl, rfl, rfl, rfl⟩

theorem make_dead_fields (c : LifeCell) :
    (c.make_dead).alive = false ∧ (c.make_dead).current_state = false ∧
    (c.make_dead).next_state = false ∧ (c.make_dead).neighbor_indices = c.neighbor_indices :=
  ⟨rfl, rfl, rfl, rfl⟩

theorem make_dead_idem (c : LifeCell) : c.make_dead.make_dead = c.make_dead := rfl

end LifeCell

/-! ## Grid-level characterizations -/

namespace Grid

theorem modify_fun_id {α : Type} (i : ℕ) (l : List α) : List.modify (fun a => a) i l = l := by
  apply List.ext_getElem?
  intro n
  rw [List.getElem?_modify]
  cases l[n]? <;> simp

theorem ite_modify_eq {α : Type} (c : Prop) [Decidable c] (f : α → α) (i : ℕ) (l : List α) :
    (if c then List.modify f i l else l) = List.modify (fun a => if c then f a else a) i l := by
  by_cases h : c
  · rw [if_pos h]
    congr 1
    funext a
    rw [if_pos h]
  · rw [if_neg h]
    have hid : (fun (a : α) => if c then f a else a) = fun a => a := funext fun a => if_neg h
    rw [hid, modify_fun_id]

theorem create_base_eq (W H : ℕ) :
    ((List.range W).foldl
      (fun acc _x => (List.range H).foldl (fun acc2 _y => acc2 ++ [LifeCell.new false]) acc)
      []) = List.replicate (W * H) (LifeCell.new false) := by
  have hinner : (fun (acc : List LifeCell) (_x : ℕ) =>
      (List.range H).foldl (fun acc2 _y => acc2 ++ [LifeCell.new false]) acc) =
      fun acc _x => acc ++ List.replicate H (LifeCell.new false) := by
    funext acc x
    exact foldl_push_replicate _ H acc
  rw [hinner, foldl_append_replicate]
  rw [List.nil_append, List.length_range]

theorem create_cell_grid_eq (W H : ℕ) :
    create_cell_grid W H = set_neighbors W H (List.replicate (W * H) (LifeCell.new false)) :=
  congrArg (set_neighbors W H) (create_base_eq W H)

theorem set_neighbors_getElem? (W H : ℕ) (l : List LifeCell) (i : ℕ) :
    (set_neighbors W H l)[i]? =
      if i < W * H then
        (l[i]?).map (fun cell =>
          { cell with neighbor_indices := get_neighbor_indices_for_cell (i % W) (i / W) W H })
      else l[i]? := by
  have h := nested_fold_getElem?
    (fun x y cell =>
      ({ cell with neighbor_indices := get_neighbor_indices_for_cell x y W H } : LifeCell))
    W H l i
  exact h

theorem set_neighbors_length (W H : ℕ) (l : List LifeCell) :
    (set_neighbors W H l).length = l.length := by
  have h := nested_fold_length
    (fun x y cell =>
      ({ cell with neighbor_indices := get_neighbor_indices_for_cell x y W H } : LifeCell))
    W H l
  exact h

theorem new_cells_length (W H : ℕ) : (Grid.new W H).cells.length = W * H := by
  show (create_cell_grid W H).length = W * H
  rw [create_cell_grid_eq, set_neighbors_length, List.length_replicate]

theorem new_cells_getElem? (W H i : ℕ) (hi : i < W * H) :
    (Grid.new W H).cells[i]? =
      some { alive := false, neighbor_indices := nbrList (i % W) (i / W) W H,
             current_state := false, next_state := false } := by
  show (create_cell_grid W H)[i]? = _
  rw [create_cell_grid_eq, set_neighbors_getElem?, if_pos hi, List.getElem?_replicate,
    if_pos hi]
  simp [LifeCell.new, get_neighbor_indices_eq_nbrList]

theorem reset_cells_getElem? (g : Grid) (i : ℕ) :
    (g.reset).cells[i]? =
      if i < g.x_cells * g.y_cells then (g.cells[i]?).map LifeCell.make_dead
      else g.cells[i]? :=
  nested_fold_getElem? (fun _x _y => LifeCell.make_dead) g.x_cells g.y_cells g.cells i

theorem reset_cells_length (g : Grid) : (g.reset).cells.length = g.cells.length :=
  nested_fold_length (fun _x _y => LifeCell.make_dead) g.x_cells g.y_cells g.cells

theorem reset_generation (g : Grid) : (g.reset).generation = 0 := rfl

theorem reset_x_cells (g : Grid) : (g.reset).x_cells = g.x_cells := rfl

theorem reset_y_cells (g : Grid) : (g.reset).y_cells = g.y_cells := rfl

theorem randomize_cells_eq (g : Grid) (r : ℕ → ℚ) (p : ℚ) :
    (g.randomize r p).cells =
      (List.range g.x_cells).foldl
        (fun gr x =>
          (List.range g.y_cells).foldl
            (fun gr2 y =>
              List.modify (fun c => if r (x * g.y_cells + y) ≤ p then c.make_live else c)
                (x + y * g.x_cells) gr2)
            gr)
        (g.reset).cells := by
  show (List.range g.x_cells).foldl
      (fun gr x =>
        (List.range g.y_cells).foldl
          (fun gr2 y =>
            if r (x * g.y_cells + y) ≤ p then
              List.modify LifeCell.make_live (x + y * g.x_cells) gr2
            else gr2)
          gr)
      (g.reset).cells = _
  have hstep : ∀ x : ℕ,
      (fun (gr2 : List LifeCell) (y : ℕ) =>
        if r (x * g.y_cells + y) ≤ p then
          List.modify LifeCell.make_live (x + y * g.x_cells) gr2
        else gr2) =
      fun gr2 y =>
        List.modify (fun c => if r (x * g.y_cells + y) ≤ p then c.make_live else c)
          (x + y * g.x_cells) gr2 :=
    fun x => funext fun gr2 => funext fun y => ite_modify_eq _ _ _ _
  have houter : (fun (gr : List LifeCell) (x : ℕ) =>
      (List.range g.y_cells).foldl
        (fun gr2 y =>
          if r (x * g.y_cells + y) ≤ p then
            List.modify LifeCell.make_live (x + y * g.x_cells) gr2
          else gr2)
        gr) =
      fun gr x =>
        (List.range g.y_cells).foldl
          (fun gr2 y =>
            List.modify (fun c => if r (x * g.y_cells + y) ≤ p then c.make_live else c)
              (x + y * g.x_cells) gr2)
          gr := by
    funext gr x
    exact congrArg (fun s => List.foldl s gr (List.range g.y_cells)) (hstep x)
  rw [houter]

theorem randomize_cells_getElem? (g : Grid) (r : ℕ → ℚ) (p : ℚ) (i : ℕ) :
    (g.randomize r p).cells[i]? =
      if i < g.x_cells * g.y_cells then
        ((g.reset).cells[i]?).map
          (fun c => if r ((i % g.x_cells) * g.y_cells + i / g.x_cells) ≤ p then c.make_live else c)
      else (g.reset).cells[i]? := by
  rw [randomize_cells_eq]
  exact nested_fold_getElem?
    (fun x y c => if r (x * g.y_cells + y) ≤ p then c.make_live else c)
    g.x_cells g.y_cells (g.reset).cells i

theorem randomize_cells_length (g : Grid) (r : ℕ → ℚ) (p : ℚ) :
    (g.randomize r p).cells.length = g.cells.length := by
  rw [randomize_cells_eq, nested_fold_length, reset_cells_length]

theorem randomize_generation (g : Grid) (r : ℕ → ℚ) (p : ℚ) :
    (g.randomize r p).generation = 0 := rfl

theorem randomize_x_cells (g : Grid) (r : ℕ → ℚ) (p : ℚ) :
    (g.randomize r p).x_cells = g.x_cells := rfl

theorem randomize_y_cells (g : Grid) (r : ℕ → ℚ) (p : ℚ) :
    (g.randomize r p).y_cells = g.y_cells := rfl

theorem update_cells_getElem? (g : Grid) (i : ℕ) :
    (g.update).1.cells[i]? = (g.cells[i]?).map (fun cell =>
      (cell.prepare_update
        (((cell.get_neighbor_indices.filter
            (fun nidx => (g.cells.map (fun c => c.alive)).getD nidx false)).length) % 256)).update) := by
  show ((g.cells.map _).map _)[i]? = _
  rw [List.getElem?_map, List.getElem?_map, Option.map_map]
  rfl

theorem update_cells_length (g : Grid) : (g.update).1.cells.length = g.cells.length := by
  show ((g.cells.map _).map _).length = _
  rw [List.length_map, List.length_map]

theorem update_generation (g : Grid) : (g.update).1.generation = g.generation + 1 := rfl

theorem update_ret (g : Grid) : (g.update).2 = g.generation + 1 := rfl

theorem update_x_cells (g : Grid) : (g.update).1.x_cells = g.x_cells := rfl

theorem update_y_cells (g : Grid) : (g.update).1.y_cells = g.y_cells := rfl

theorem make_live_at_cells_getElem? (g : Grid) (j i : ℕ) :
    (g.make_live_at j).cells[i]? =
      (fun a => if j = i then a.make_live else a) <$> g.cells[i]? :=
  List.getElem?_modify LifeCell.make_live j g.cells i

theorem make_dead_at_cells_getElem? (g : Grid) (j i : ℕ) :
    (g.make_dead_at j).cells[i]? =
      (fun a => if j = i then a.make_dead else a) <$> g.cells[i]? :=
  List.getElem?_modify LifeCell.make_dead j g.cells i

end Grid

/-! ## Reachability invariants -/

namespace Grid

/-- The per-cell three-way agreement the spec maintains between
generations: `alive == currentState == nextState`. -/
def GridInv (g : Grid) : Prop :=
  ∀ c ∈ g.cells, c.alive = c.current_state ∧ c.next_state = c.current_state

/-- Well-formedness of the topology: `width * height` cells, and the
cell at slot `i` carries exactly the neighbour list computed for
coordinates `(i % width, i / width)`. -/
def IsCanonical (g : Grid) : Prop :=
  g.cells.length = g.x_cells * g.y_cells ∧
  ∀ i, i < g.cells.length →
    (g.cells.getD i default).neighbor_indices =
      nbrList (i % g.x_cells) (i / g.x_cells) g.x_cells g.y_cells

theorem gridInv_of_getElem?
    (g : Grid)
    (h : ∀ i : ℕ, ∀ c : LifeCell, g.cells[i]? = some c →
      c.alive = c.current_state ∧ c.next_state = c.current_state) :
    GridInv g := by
  intro c hc
  obtain ⟨i, hi⟩ := List.mem_iff_getElem?.mp hc
  exact h i c hi

theorem gridInv_getElem? (g : Grid) (hg : GridInv g) (i : ℕ) (c : LifeCell)
    (h : g.cells[i]? = some c) :
    c.alive = c.current_state ∧ c.next_state = c.current_state :=
  hg c (List.mem_iff_getElem?.mpr ⟨i, h⟩)

theorem isCanonical_nbrs (g : Grid) (hg : IsCanonical g) (i : ℕ) (c : LifeCell)
    (h : g.cells[i]? = some c) :
    c.neighbor_indices = nbrList (i % g.x_cells) (i / g.x_cells) g.x_cells g.y_cells := by
  have hlen : i < g.cells.length := (List.getElem?_eq_some.mp h).1
  have hd := hg.2 i hlen
  rw [List.getD_eq_getElem?_getD, h] at hd
  exact hd

theorem new_gridInv (W H : ℕ) : GridInv (Grid.new W H) := by
  apply gridInv_of_getElem?
  intro i c hi
  have hlen : i < (Grid.new W H).cells.length := (List.getElem?_eq_some.mp hi).1
  rw [new_cells_length] at hlen
  rw [new_cells_getElem? W H i hlen] at hi
  obtain rfl : _ = c := Option.some_injective _ hi
  exact ⟨rfl, rfl⟩

theorem new_isCanonical (W H : ℕ) : IsCanonical (Grid.new W H) := by
  refine ⟨new_cells_length W H, ?_⟩
  intro i hlen
  rw [new_cells_length] at hlen
  rw [List.getD_eq_getElem?_getD, new_cells_getElem? W H i hlen]
  rfl

end Grid

namespace LifeCell

theorem update_preserves_nbrs (c : LifeCell) :
    (c.update).neighbor_indices = c.neighbor_indices := by
  rw [update]
  split
  · split <;> rfl
  · rfl

end LifeCell

namespace Grid


/-- The live-neighbour count `Grid::update` computes for one cell
(before the `u8` narrowing): filter the cell's neighbour indices by
the snapshot of `alive` values. -/
def liveCount (g : Grid) (c : LifeCell) : ℕ :=
  (c.get_neighbor_indices.filter
    (fun nidx => (g.cells.map (fun cell => cell.alive)).getD nidx false)).length

theorem update_cells_getElem?_some (g : Grid) (i : ℕ) (c : LifeCell)
    (h : g.cells[i]? = some c) :
    (g.update).1.cells[i]? = some ((c.prepare_update (g.liveCount c % 256)).update) := by
  rw [update_cells_getElem?, h]
  rfl

theorem update_cells_getElem?_none (g : Grid) (i : ℕ) (h : g.cells[i]? = none) :
    (g.update).1.cells[i]? = none := by
  rw [update_cells_getElem?, h]
  rfl

theorem make_live_at_getElem?_eq (g : Grid) (j i : ℕ) (c : LifeCell)
    (hj : j = i) (h : g.cells[i]? = some c) :
    (g.make_live_at j).cells[i]? = some c.make_live := by
  rw [make_live_at_cells_getElem?, h]
  show some (if j = i then c.make_live else c) = _
  rw [if_pos hj]

theorem make_live_at_getElem?_ne (g : Grid) (j i : ℕ) (hj : ¬ j = i) :
    (g.make_live_at j).cells[i]? = g.cells[i]? := by
  rw [make_live_at_cells_getElem?]
  cases h : g.cells[i]? with
  | none => rfl
  | some c =>
    show some (if j = i then c.make_live else c) = _
    rw [if_neg hj]

theorem make_dead_at_getElem?_eq (g : Grid) (j i : ℕ) (c : LifeCell)
    (hj : j = i) (h : g.cells[i]? = some c) :
    (g.make_dead_at j).cells[i]? = some c.make_dead := by
  rw [make_dead_at_cells_getElem?, h]
  show some (if j = i then c.make_dead else c) = _
  rw [if_pos hj]

theorem make_dead_at_getElem?_ne (g : Grid) (j i : ℕ) (hj : ¬ j = i) :
    (g.make_dead_at j).cells[i]? = g.cells[i]? := by
  rw [make_dead_at_cells_getElem?]
  cases h : g.cells[i]? with
  | none => rfl
  | some c =>
    show some (if j = i then c.make_dead else c) = _
    rw [if_neg hj]

theorem reset_cells_getElem?_some (g : Grid) (i : ℕ) (c : LifeCell)
    (hi : i < g.x_cells * g.y_cells) (h : g.cells[i]? = some c) :
    (g.reset).cells[i]? = some c.make_dead := by
  rw [reset_cells_getElem?, if_pos hi, h]
  rfl

theorem randomize_cells_getElem?_some (g : Grid) (r : ℕ → ℚ) (p : ℚ) (i : ℕ) (c : LifeCell)
    (hi : i < g.x_cells * g.y_cells) (h : (g.reset).cells[i]? = some c) :
    (g.randomize r p).cells[i]? =
      some (if r ((i % g.x_cells) * g.y_cells + i / g.x_cells) ≤ p then c.make_live else c) := by
  rw [randomize_cells_getElem?, if_pos hi, h]
  rfl

theorem randomize_cells_getElem?_ge (g : Grid) (r : ℕ → ℚ) (p : ℚ) (i : ℕ)
    (hi : ¬ i < g.x_cells * g.y_cells) :
    (g.randomize r p).cells[i]? = (g.reset).cells[i]? := by
  rw [randomize_cells_getElem?, if_neg hi]

theorem make_live_at_gridInv (g : Grid) (j : ℕ) (hg : GridInv g) :
    GridInv (g.make_live_at j) := by
  apply gridInv_of_getElem?
  intro i c' hi
  by_cases hj : j = i
  · cases hcell : g.cells[i]? with
    | none =>
      rw [make_live_at_cells_getElem?, hcell] at hi
      exact absurd hi (by simp)
    | some c =>
      rw [make_live_at_getElem?_eq g j i c hj hcell] at hi
      obtain rfl : _ = c' := Option.some_injective _ hi
      exact ⟨rfl, rfl⟩
  · rw [make_live_at_getElem?_ne g j i hj] at hi
    exact gridInv_getElem? g hg i c' hi

theorem make_dead_at_gridInv (g : Grid) (j : ℕ) (hg : GridInv g) :
    GridInv (g.make_dead_at j) := by
  apply gridInv_of_getElem?
  intro i c' hi
  by_cases hj : j = i
  · cases hcell : g.cells[i]? with
    | none =>
      rw [make_dead_at_cells_getElem?, hcell] at hi
      exact absurd hi (by simp)
    | some c =>
      rw [make_dead_at_getElem?_eq g j i c hj hcell] at hi
      obtain rfl : _ = c' := Option.some_injective _ hi
      exact ⟨rfl, rfl⟩
  · rw [make_dead_at_getElem?_ne g j i hj] at hi
    exact gridInv_getElem? g hg i c' hi

theorem reset_gridInv (g : Grid) (hg : GridInv g) : GridInv g.reset := by
  apply gridInv_of_getElem?
  intro i c' hi
  by_cases hlt : i < g.x_cells * g.y_cells
  · cases hcell : g.cells[i]? with
    | none =>
      rw [reset_cells_getElem?, if_pos hlt, hcell] at hi
      exact absurd hi (by simp)
    | some c =>
      rw [reset_cells_getElem?_some g i c hlt hcell] at hi
      obtain rfl : _ = c' := Option.some_injective _ hi
      exact ⟨rfl, rfl⟩
  · rw [reset_cells_getElem?, if_neg hlt] at hi
    exact gridInv_getElem? g hg i c' hi

theorem randomize_gridInv (g : Grid) (r : ℕ → ℚ) (p : ℚ) (hg : GridInv g) :
    GridInv (g.randomize r p) := by
  apply gridInv_of_getElem?
  intro i c' hi
  have hreset := reset_gridInv g hg
  by_cases hlt : i < g.x_cells * g.y_cells
  · cases hcell : (g.reset).cells[i]? with
    | none =>
      rw [randomize_cells_getElem?, if_pos hlt, hcell] at hi
      exact absurd hi (by simp)
    | some c =>
      rw [randomize_cells_getElem?_some g r p i c hlt hcell] at hi
      obtain rfl : _ = c' := Option.some_injective _ hi
      by_cases hr : r ((i % g.x_cells) * g.y_cells + i / g.x_cells) ≤ p
      · rw [if_pos hr]
        exact ⟨rfl, rfl⟩
      · rw [if_neg hr]
        exact gridInv_getElem? _ hreset i c hcell
  · rw [randomize_cells_getElem?_ge g r p i hlt] at hi
    exact gridInv_getElem? _ hreset i c' hi

theorem update_gridInv (g : Grid) (hg : GridInv g) : GridInv (g.update).1 := by
  apply gridInv_of_getElem?
  intro i c' hi
  cases hcell : g.cells[i]? with
  | none =>
    rw [update_cells_getElem?_none g i hcell] at hi
    exact absurd hi (by simp)
  | some c =>
    rw [update_cells_getElem?_some g i c hcell] at hi
    obtain rfl : _ = c' := Option.some_injective _ hi
    obtain ⟨hinv1, hinv2⟩ := gridInv_getElem? g hg i c hcell
    obtain ⟨hp1, hp2, hp3⟩ := LifeCell.prepare_update_preserves c (g.liveCount c % 256)
    have hagree : (c.prepare_update (g.liveCount c % 256)).alive =
        (c.prepare_update (g.liveCount c % 256)).current_state := by
      rw [hp1, hp2, hinv1]
    exact LifeCell.update_restores_inv _ hagree

end Grid

namespace Grid

theorem isCanonical_of (g g' : Grid) (hg : IsCanonical g)
    (hx : g'.x_cells = g.x_cells) (hy : g'.y_cells = g.y_cells)
    (hlen : g'.cells.length = g.cells.length)
    (hnbr : ∀ (i : ℕ) (c c' : LifeCell), g.cells[i]? = some c → g'.cells[i]? = some c' →
      c'.neighbor_indices = c.neighbor_indices) :
    IsCanonical g' := by
  refine ⟨by rw [hlen, hx, hy]; exact hg.1, ?_⟩
  intro i hi
  have hi0 : i < g.cells.length := by rw [← hlen]; exact hi
  obtain ⟨c', hc'⟩ : ∃ c', g'.cells[i]? = some c' := ⟨g'.cells[i], List.getElem?_eq_getElem hi⟩
  obtain ⟨c, hc⟩ : ∃ c, g.cells[i]? = some c := ⟨g.cells[i], List.getElem?_eq_getElem hi0⟩
  rw [List.getD_eq_getElem?_getD, hc', hx, hy]
  show c'.neighbor_indices = _
  rw [hnbr i c c' hc hc']
  have hd := hg.2 i hi0
  rw [List.getD_eq_getElem?_getD, hc] at hd
  exact hd

theorem make_live_at_isCanonical (g : Grid) (j : ℕ) (hg : IsCanonical g) :
    IsCanonical (g.make_live_at j) := by
  refine isCanonical_of g _ hg rfl rfl (List.length_modify ..) ?_
  intro i c c' hc hc'
  by_cases hj : j = i
  · rw [make_live_at_getElem?_eq g j i c hj hc] at hc'
    obtain rfl : _ = c' := Option.some_injective _ hc'
    exact (LifeCell.make_live_fields c).2.2.2
  · rw [make_live_at_getElem?_ne g j i hj, hc] at hc'
    obtain rfl : _ = c' := Option.some_injective _ hc'
    rfl

theorem make_dead_at_isCanonical (g : Grid) (j : ℕ) (hg : IsCanonical g) :
    IsCanonical (g.make_dead_at j) := by
  refine isCanonical_of g _ hg rfl rfl (List.length_modify ..) ?_
  intro i c c' hc hc'
  by_cases hj : j = i
  · rw [make_dead_at_getElem?_eq g j i c hj hc] at hc'
    obtain rfl : _ = c' := Option.some_injective _ hc'
    exact (LifeCell.make_dead_fields c).2.2.2
  · rw [make_dead_at_getElem?_ne g j i hj, hc] at hc'
    obtain rfl : _ = c' := Option.some_injective _ hc'
    rfl

theorem reset_isCanonical (g : Grid) (hg : IsCanonical g) : IsCanonical g.reset := by
  refine isCanonical_of g _ hg rfl rfl (reset_cells_length g) ?_
  intro i c c' hc hc'
  by_cases hlt : i < g.x_cells * g.y_cells
  · rw [reset_cells_getElem?_some g i c hlt hc] at hc'
    obtain rfl : _ = c' := Option.some_injective _ hc'
    exact (LifeCell.make_dead_fields c).2.2.2
  · rw [reset_cells_getElem?, if_neg hlt, hc] at hc'
    obtain rfl : _ = c' := Option.some_injective _ hc'
    rfl

theorem randomize_isCanonical (g : Grid) (r : ℕ → ℚ) (p : ℚ) (hg : IsCanonical g) :
    IsCanonical (g.randomize r p) := by
  refine isCanonical_of g.reset _ (reset_isCanonical g hg) rfl rfl ?_ ?_
  · rw [randomize_cells_length, reset_cells_length]
  · intro i c c' hc hc'
    by_cases hlt : i < g.x_cells * g.y_cells
    · rw [randomize_cells_getElem?_some g r p i c hlt hc] at hc'
      obtain rfl : _ = c' := Option.some_injective _ hc'
      by_cases hr : r ((i % g.x_cells) * g.y_cells + i / g.x_cells) ≤ p
      · rw [if_pos hr]
        exact (LifeCell.make_live_fields c).2.2.2
      · rw [if_neg hr]
    · rw [randomize_cells_getElem?_ge g r p i hlt, hc] at hc'
      obtain rfl : _ = c' := Option.some_injective _ hc'
      rfl

theorem update_isCanonical (g : Grid) (hg : IsCanonical g) : IsCanonical (g.update).1 := by
  refine isCanonical_of g _ hg rfl rfl (update_cells_length g) ?_
  intro i c c' hc hc'
  rw [update_cells_getElem?_some g i c hc] at hc'
  obtain rfl : _ = c' := Option.some_injective _ hc'
  rw [LifeCell.update_preserves_nbrs,
    (LifeCell.prepare_update_preserves c (g.liveCount c % 256)).2.2]

/-- Every reachable grid is well-formed and satisfies the per-cell
agreement invariant. -/
def GoodGrid (g : Grid) : Prop := IsCanonical g ∧ GridInv g

end Grid

theorem reachable_good (g : Grid) (h : Reachable g) : Grid.GoodGrid g := by
  induction h with
  | new W H => exact ⟨Grid.new_isCanonical W H, Grid.new_gridInv W H⟩
  | make_live_at g i _ ih =>
    exact ⟨Grid.make_live_at_isCanonical g i ih.1, Grid.make_live_at_gridInv g i ih.2⟩
  | make_dead_at g i _ ih =>
    exact ⟨Grid.make_dead_at_isCanonical g i ih.1, Grid.make_dead_at_gridInv g i ih.2⟩
  | reset g _ ih =>
    exact ⟨Grid.reset_isCanonical g ih.1, Grid.reset_gridInv g ih.2⟩
  | randomize g r p _ ih =>
    exact ⟨Grid.randomize_isCanonical g r p ih.1, Grid.randomize_gridInv g r p ih.2⟩
  | update g _ ih =>
    exact ⟨Grid.update_isCanonical g ih.1, Grid.update_gridInv g ih.2⟩

/-! ## Coordinate-level view of `update` -/

namespace Grid

/-- The committed `alive` flag of the cell at `(x, y)`. -/
def aliveAt (g : Grid) (x y : ℕ) : Bool :=
  (g.cells.getD (x + y * g.x_cells) default).alive

/-- The live-neighbour count of `(x, y)` as a sum of the 8 guarded
neighbour contributions, over an arbitrary alive-configuration `A`. -/
def nbrCount (W H : ℕ) (A : ℕ → ℕ → Bool) (x y : ℕ) : ℕ :=
  (if 1 ≤ x ∧ A (x - 1) y = true then 1 else 0) +
  (if (1 ≤ x ∧ 1 ≤ y) ∧ A (x - 1) (y - 1) = true then 1 else 0) +
  (if 1 ≤ y ∧ A x (y - 1) = true then 1 else 0) +
  (if (x + 1 < W ∧ 1 ≤ y) ∧ A (x + 1) (y - 1) = true then 1 else 0) +
  (if x + 1 < W ∧ A (x + 1) y = true then 1 else 0) +
  (if (x + 1 < W ∧ y + 1 < H) ∧ A (x + 1) (y + 1) = true then 1 else 0) +
  (if y + 1 < H ∧ A x (y + 1) = true then 1 else 0) +
  (if (1 ≤ x ∧ y + 1 < H) ∧ A (x - 1) (y + 1) = true then 1 else 0)

theorem snapshot_getD (g : Grid) (j : ℕ) :
    (g.cells.map (fun cell => cell.alive)).getD j false = (g.cells.getD j default).alive := by
  rw [List.getD_eq_getElem?_getD, List.getD_eq_getElem?_getD, List.getElem?_map]
  cases g.cells[j]? <;> rfl

theorem liveCount_le (g : Grid) (hg : IsCanonical g) (x y : ℕ)
    (hx : x < g.x_cells) (hy : y < g.y_cells) (c : LifeCell)
    (hc : g.cells[x + y * g.x_cells]? = some c) :
    g.liveCount c ≤ 8 := by
  have hn := isCanonical_nbrs g hg (x + y * g.x_cells) c hc
  rw [encode_mod _ _ _ hx, encode_div _ _ _ hx] at hn
  calc g.liveCount c ≤ c.get_neighbor_indices.length := List.length_filter_le _ _
    _ = (nbrList x y g.x_cells g.y_cells).length := by
        rw [LifeCell.get_neighbor_indices, hn]
    _ ≤ 8 := nbrList_length_le_eight x y g.x_cells g.y_cells

theorem liveCount_eq_nbrCount (g : Grid) (hg : IsCanonical g) (x y : ℕ)
    (hx : x < g.x_cells) (hy : y < g.y_cells) (c : LifeCell)
    (hc : g.cells[x + y * g.x_cells]? = some c) :
    g.liveCount c = nbrCount g.x_cells g.y_cells g.aliveAt x y := by
  have hn := isCanonical_nbrs g hg (x + y * g.x_cells) c hc
  rw [encode_mod _ _ _ hx, encode_div _ _ _ hx] at hn
  rw [liveCount, LifeCell.get_neighbor_indices, hn, nbrList_filter_length]
  simp only [snapshot_getD, nbrCount, aliveAt]

/-- One `Grid::update`, viewed per coordinate: the committed `alive`
value afterwards is the spec rule applied to the snapshot. -/
theorem update_aliveAt (g : Grid) (hcan : IsCanonical g) (hinv : GridInv g)
    (x y : ℕ) (hx : x < g.x_cells) (hy : y < g.y_cells) :
    (g.update).1.aliveAt x y =
      specRule (g.aliveAt x y) (nbrCount g.x_cells g.y_cells g.aliveAt x y) := by
  have hi : x + y * g.x_cells < g.cells.length := by
    rw [hcan.1]
    exact encode_lt x y _ _ hx hy
  obtain ⟨c, hc⟩ : ∃ c, g.cells[x + y * g.x_cells]? = some c :=
    ⟨g.cells[x + y * g.x_cells], List.getElem?_eq_getElem hi⟩
  obtain ⟨hinv1, hinv2⟩ := gridInv_getElem? g hinv (x + y * g.x_cells) c hc
  have hupd := update_cells_getElem?_some g (x + y * g.x_cells) c hc
  have hxc : (g.update).1.x_cells = g.x_cells := rfl
  rw [aliveAt, List.getD_eq_getElem?_getD, hxc, hupd]
  have hle := liveCount_le g hcan x y hx hy c hc
  have hmod : g.liveCount c % 256 = g.liveCount c := Nat.mod_eq_of_lt (by omega)
  obtain ⟨hs1, -, -, -⟩ := LifeCell.cell_step c (g.liveCount c % 256) hinv1 hinv2
  show ((c.prepare_update (g.liveCount c % 256)).update).alive = _
  rw [hs1, hmod, liveCount_eq_nbrCount g hcan x y hx hy c hc]
  have ha : g.aliveAt x y = c.current_state := by
    rw [aliveAt, List.getD_eq_getElem?_getD, hc]
    exact hinv1
  rw [ha]

end Grid

/-! ## The blinker configurations -/

namespace Grid

/-- The horizontal 3-cell blinker centred at `(W / 2, H / 2)`. -/
def blinkerH (W H x y : ℕ) : Bool :=
  decide (y = H / 2 ∧ (x + 1 = W / 2 ∨ x = W / 2 ∨ x = W / 2 + 1))

/-- The vertical 3-cell blinker centred at `(W / 2, H / 2)`. -/
def blinkerV (W H x y : ℕ) : Bool :=
  decide (x = W / 2 ∧ (y + 1 = H / 2 ∨ y = H / 2 ∨ y = H / 2 + 1))

theorem ite_cond_congr {c d : Prop} [Decidable c] [Decidable d] (h : c ↔ d) :
    (if c then (1 : ℕ) else 0) = if d then 1 else 0 :=
  if_congr h rfl rfl

theorem nbrCount_congr (W H : ℕ) (A B : ℕ → ℕ → Bool) (x y : ℕ)
    (hx : x < W) (hy : y < H)
    (h : ∀ u v, u < W → v < H → A u v = B u v) :
    nbrCount W H A x y = nbrCount W H B x y := by
  simp only [nbrCount]
  have t1 : (if 1 ≤ x ∧ A (x - 1) y = true then (1 : ℕ) else 0) =
      if 1 ≤ x ∧ B (x - 1) y = true then 1 else 0 :=
    ite_cond_congr (and_congr_right fun hg => by rw [h (x - 1) y (by omega) hy])
  have t2 : (if (1 ≤ x ∧ 1 ≤ y) ∧ A (x - 1) (y - 1) = true then (1 : ℕ) else 0) =
      if (1 ≤ x ∧ 1 ≤ y) ∧ B (x - 1) (y - 1) = true then 1 else 0 :=
    ite_cond_congr (and_congr_right fun hg => by rw [h (x - 1) (y - 1) (by omega) (by omega)])
  have t3 : (if 1 ≤ y ∧ A x (y - 1) = true then (1 : ℕ) else 0) =
      if 1 ≤ y ∧ B x (y - 1) = true then 1 else 0 :=
    ite_cond_congr (and_congr_right fun hg => by rw [h x (y - 1) hx (by omega)])
  have t4 : (if (x + 1 < W ∧ 1 ≤ y) ∧ A (x + 1) (y - 1) = true then (1 : ℕ) else 0) =
      if (x + 1 < W ∧ 1 ≤ y) ∧ B (x + 1) (y - 1) = true then 1 else 0 :=
    ite_cond_congr (and_congr_right fun hg => by rw [h (x + 1) (y - 1) (by omega) (by omega)])
  have t5 : (if x + 1 < W ∧ A (x + 1) y = true then (1 : ℕ) else 0) =
      if x + 1 < W ∧ B (x + 1) y = true then 1 else 0 :=
    ite_cond_congr (and_congr_right fun hg => by rw [h (x + 1) y (by omega) hy])
  have t6 : (if (x + 1 < W ∧ y + 1 < H) ∧ A (x + 1) (y + 1) = true then (1 : ℕ) else 0) =
      if (x + 1 < W ∧ y + 1 < H) ∧ B (x + 1) (y + 1) = true then 1 else 0 :=
    ite_cond_congr (and_congr_right fun hg => by rw [h (x + 1) (y + 1) (by omega) (by omega)])
  have t7 : (if y + 1 < H ∧ A x (y + 1) = true then (1 : ℕ) else 0) =
      if y + 1 < H ∧ B x (y + 1) = true then 1 else 0 :=
    ite_cond_congr (and_congr_right fun hg => by rw [h x (y + 1) hx (by omega)])
  have t8 : (if (1 ≤ x ∧ y + 1 < H) ∧ A (x - 1) (y + 1) = true then (1 : ℕ) else 0) =
      if (1 ≤ x ∧ y + 1 < H) ∧ B (x - 1) (y + 1) = true then 1 else 0 :=
    ite_cond_congr (and_congr_right fun hg => by rw [h (x - 1) (y + 1) (by omega) (by omega)])
  rw [t1, t2, t3, t4, t5, t6, t7, t8]

/-- The 8-neighbour count is invariant under transposing the grid. -/
theorem nbrCount_transpose (W H : ℕ) (A : ℕ → ℕ → Bool) (x y : ℕ) :
    nbrCount W H A x y = nbrCount H W (fun u v => A v u) y x := by
  simp only [nbrCount]
  have e2 : (if (1 ≤ y ∧ 1 ≤ x) ∧ (fun u v => A v u) (y - 1) (x - 1) = true then (1 : ℕ) else 0) =
      if (1 ≤ x ∧ 1 ≤ y) ∧ A (x - 1) (y - 1) = true then 1 else 0 :=
    ite_cond_congr (by tauto)
  have e4 : (if (y + 1 < H ∧ 1 ≤ x) ∧ (fun u v => A v u) (y + 1) (x - 1) = true then (1 : ℕ) else 0) =
      if (1 ≤ x ∧ y + 1 < H) ∧ A (x - 1) (y + 1) = true then 1 else 0 :=
    ite_cond_congr (by tauto)
  have e6 : (if (y + 1 < H ∧ x + 1 < W) ∧ (fun u v => A v u) (y + 1) (x + 1) = true then (1 : ℕ) else 0) =
      if (x + 1 < W ∧ y + 1 < H) ∧ A (x + 1) (y + 1) = true then 1 else 0 :=
    ite_cond_congr (by tauto)
  have e8 : (if (1 ≤ y ∧ x + 1 < W) ∧ (fun u v => A v u) (y - 1) (x + 1) = true then (1 : ℕ) else 0) =
      if (x + 1 < W ∧ 1 ≤ y) ∧ A (x + 1) (y - 1) = true then 1 else 0 :=
    ite_cond_congr (by tauto)
  rw [e2, e4, e6, e8]
  omega

set_option maxHeartbeats 4000000 in
/-- One spec-rule step turns the horizontal blinker into the vertical
one, on any grid at least 5×5. -/
theorem blinker_step1 (W H x y : ℕ) (hW : 5 ≤ W) (hH : 5 ≤ H)
    (hx : x < W) (hy : y < H) :
    specRule (blinkerH W H x y) (nbrCount W H (blinkerH W H) x y) = blinkerV W H x y := by
  rw [Bool.eq_iff_iff]
  simp only [specRule, blinkerH, blinkerV, nbrCount, decide_eq_true_eq, Bool.or_eq_true,
    Bool.and_eq_true, Bool.not_eq_true', decide_eq_false_iff_not]
  split_ifs <;> omega

theorem blinkerV_transpose (W H x y : ℕ) : blinkerV H W y x = blinkerH W H x y := rfl

/-- One spec-rule step turns the vertical blinker back into the
horizontal one. -/
theorem blinker_step2 (W H x y : ℕ) (hW : 5 ≤ W) (hH : 5 ≤ H)
    (hx : x < W) (hy : y < H) :
    specRule (blinkerV W H x y) (nbrCount W H (blinkerV W H) x y) = blinkerH W H x y := by
  rw [nbrCount_transpose W H (blinkerV W H) x y]
  have h1 : (fun u v => blinkerV W H v u) = blinkerH H W := rfl
  rw [h1]
  have h2 : blinkerV W H x y = blinkerH H W y x := rfl
  rw [h2, blinker_step1 H W y x hH hW hy hx]
  exact blinkerV_transpose W H x y

end Grid

theorem grid_eq_of_fields (a b : Grid) (h1 : a.x_cells = b.x_cells)
    (h2 : a.y_cells = b.y_cells) (h3 : a.generation = b.generation)
    (h4 : a.cells = b.cells) : a = b := by
  cases a
  cases b
  simp only at h1 h2 h3 h4
  subst h1
  subst h2
  subst h3
  subst h4
  rfl

/-! ## The claims -/

/-- C1: on every grid constructed by `new` and reachable through
`make_live`/`make_dead`/`reset`/`randomize` (and `update`), one call to
`update()` sets each cell's `alive` to the standard rule applied to the
pre-call committed states, the live neighbours being counted over that
cell's `neighbor_indices` in the snapshot of `alive` values taken
before any cell is mutated. -/
theorem C1_update_follows_rule (g : Grid) (hg : Reachable g) (i : ℕ)
    (hi : i < g.cells.length) :
    ((g.update).1.cells.getD i default).alive =
      specRule ((g.cells.getD i default).alive)
        (((g.cells.getD i default).neighbor_indices.filter
          (fun nidx => (g.cells.map (fun cell => cell.alive)).getD nidx false)).length) := by
  obtain ⟨hcan, hinv⟩ := reachable_good g hg
  obtain ⟨c, hc⟩ : ∃ c, g.cells[i]? = some c := ⟨g.cells[i], List.getElem?_eq_getElem hi⟩
  have hiWH : i < g.x_cells * g.y_cells := by rw [← hcan.1]; exact hi
  have hW : 0 < g.x_cells := by
    rcases Nat.eq_zero_or_pos g.x_cells with h | h
    · rw [h] at hiWH; omega
    · exact h
  have hx : i % g.x_cells < g.x_cells := decode_lt_left i g.x_cells hW
  have hy : i / g.x_cells < g.y_cells := decode_lt_right i g.x_cells g.y_cells hiWH
  have hienc : i % g.x_cells + (i / g.x_cells) * g.x_cells = i := decode_encode i g.x_cells
  have hc' : g.cells[i % g.x_cells + (i / g.x_cells) * g.x_cells]? = some c := by
    rw [hienc]; exact hc
  have hle : g.liveCount c ≤ 8 :=
    Grid.liveCount_le g hcan (i % g.x_cells) (i / g.x_cells) hx hy c hc'
  have hmod : g.liveCount c % 256 = g.liveCount c := Nat.mod_eq_of_lt (by omega)
  obtain ⟨hinv1, hinv2⟩ := Grid.gridInv_getElem? g hinv i c hc
  obtain ⟨hs1, -, -, -⟩ := LifeCell.cell_step c (g.liveCount c % 256) hinv1 hinv2
  have hupd := Grid.update_cells_getElem?_some g i c hc
  rw [List.getD_eq_getElem?_getD, hupd, List.getD_eq_getElem?_getD, hc]
  show ((c.prepare_update (g.liveCount c % 256)).update).alive = _
  rw [hs1, hmod, ← hinv1]
  rfl

/-- Witness for C1 at the 1×1 grid. -/
theorem C1_witness :
    (((Grid.new 1 1).update).1.cells.getD 0 default).alive =
      specRule (((Grid.new 1 1).cells.getD 0 default).alive)
        ((((Grid.new 1 1).cells.getD 0 default).neighbor_indices.filter
          (fun nidx => ((Grid.new 1 1).cells.map (fun cell => cell.alive)).getD nidx false)).length) :=
  C1_update_follows_rule (Grid.new 1 1) (Reachable.new 1 1) 0 (by decide)

/-- C2 fails as stated: `prepare_update` skips its write when the cell
is dead with fewer than 3 live neighbours, so a cell entering with a
stale `next_state = true` keeps it, instead of the rule value
(`false`). -/
theorem C2_counterexample :
    (LifeCell.prepare_update
      { alive := false, neighbor_indices := [], current_state := false, next_state := true }
      0).next_state ≠ specRule false 0 := by
  decide

/-- C2 (amended): for every cell whose `nextState` equals its
`currentState` on entry — which holds for every cell of a reachable
grid between updates — `prepareUpdate(n)` leaves `nextState` equal to
the value the standard rule assigns from `currentState` and `n` alone,
and changes neither `currentState` nor `alive`.  (When the cell is
dead with `n < 3` the code skips the write, so cells entering with
`nextState ≠ currentState` may keep a stale `nextState`.) -/
theorem C2_prepare_update_rule (c : LifeCell) (n : ℕ)
    (h : c.next_state = c.current_state) :
    (c.prepare_update n).next_state = specRule c.current_state n ∧
    (c.prepare_update n).current_state = c.current_state ∧
    (c.prepare_update n).alive = c.alive :=
  ⟨LifeCell.prepare_update_next_of_inv c n h,
   (LifeCell.prepare_update_preserves c n).2.1,
   (LifeCell.prepare_update_preserves c n).1⟩

/-- Witness for the amended C2: a live fresh cell with 3 neighbours. -/
theorem C2_witness :
    (LifeCell.prepare_update
      { alive := true, neighbor_indices := [], current_state := true, next_state := true }
      3).next_state = specRule true 3 ∧
    (LifeCell.prepare_update
      { alive := true, neighbor_indices := [], current_state := true, next_state := true }
      3).current_state = true ∧
    (LifeCell.prepare_update
      { alive := true, neighbor_indices := [], current_state := true, next_state := true }
      3).alive = true :=
  C2_prepare_update_rule
    { alive := true, neighbor_indices := [], current_state := true, next_state := true } 3 rfl

/-- C3 fails as stated for width = height = 1: the single cell of a
1×1 grid is a corner cell yet has an empty neighbour list, not 3
entries. -/
theorem C3_counterexample :
    Grid.IsCornerPos 1 1 0 0 ∧
    ((Grid.new 1 1).cells.getD (0 + 0 * 1) default).neighbor_indices.length ≠ 3 := by
  constructor
  · exact ⟨Or.inl rfl, Or.inl rfl⟩
  · decide

/-- C3 (amended): on every grid `new(W, H)` with `W ≥ 2` and `H ≥ 2`,
corner cells have exactly 3 neighbour entries, non-corner edge cells
exactly 5, interior cells exactly 8 (for 1×N and N×1 grids the corner
counts are smaller); and for all grid sizes the neighbour relation is
symmetric: `b` appears in `a`'s list iff `a` appears in `b`'s. -/
theorem C3_neighbor_counts_and_symmetry (W H : ℕ) :
    (2 ≤ W → 2 ≤ H → ∀ i, i < (Grid.new W H).cells.length →
      (Grid.IsCornerPos W H (i % W) (i / W) →
        ((Grid.new W H).cells.getD i default).neighbor_indices.length = 3) ∧
      (Grid.IsEdgePos W H (i % W) (i / W) →
        ((Grid.new W H).cells.getD i default).neighbor_indices.length = 5) ∧
      (Grid.IsInteriorPos W H (i % W) (i / W) →
        ((Grid.new W H).cells.getD i default).neighbor_indices.length = 8)) ∧
    (∀ a b, a < (Grid.new W H).cells.length → b < (Grid.new W H).cells.length →
      (b ∈ ((Grid.new W H).cells.getD a default).neighbor_indices ↔
        a ∈ ((Grid.new W H).cells.getD b default).neighbor_indices)) := by
  have hlen := Grid.new_cells_length W H
  have hnbrs : ∀ i, i < W * H →
      ((Grid.new W H).cells.getD i default).neighbor_indices = Grid.nbrList (i % W) (i / W) W H := by
    intro i hi
    rw [List.getD_eq_getElem?_getD, Grid.new_cells_getElem? W H i hi]
    rfl
  constructor
  · intro hW hH i hi
    rw [hlen] at hi
    have hW0 : 0 < W := by omega
    have hx : i % W < W := decode_lt_left i W hW0
    have hy : i / W < H := decode_lt_right i W H hi
    rw [hnbrs i hi]
    exact ⟨Grid.nbrList_length_corner _ _ W H hW hH hx hy,
      Grid.nbrList_length_edge _ _ W H hW hH hx hy,
      Grid.nbrList_length_interior _ _ W H hx hy⟩
  · intro a b ha hb
    rw [hlen] at ha hb
    have hW0 : 0 < W := by
      rcases Nat.eq_zero_or_pos W with h | h
      · rw [h] at ha; omega
      · exact h
    rw [hnbrs a ha, hnbrs b hb]
    rw [Grid.mem_nbrList_coord _ _ W H b (decode_lt_left a W hW0) (decode_lt_right a W H ha) hb,
      Grid.mem_nbrList_coord _ _ W H a (decode_lt_left b W hW0) (decode_lt_right b W H hb) ha,
      decode_encode a W, decode_encode b W]
    constructor
    · rintro ⟨h1, h2, h3, h4, h5⟩
      exact ⟨by omega, by omega, by omega, by omega, by omega⟩
    · rintro ⟨h1, h2, h3, h4, h5⟩
      exact ⟨by omega, by omega, by omega, by omega, by omega⟩

/-- Witness for the amended C3 on the 2×2 grid: cell 0 is a corner
with 3 neighbours, and the relation between cells 0 and 1 is
symmetric. -/
theorem C3_witness :
    (((Grid.new 2 2).cells.getD 0 default).neighbor_indices.length = 3) ∧
    (1 ∈ ((Grid.new 2 2).cells.getD 0 default).neighbor_indices ↔
      0 ∈ ((Grid.new 2 2).cells.getD 1 default).neighbor_indices) :=
  ⟨((C3_neighbor_counts_and_symmetry 2 2).1 (by decide) (by decide) 0 (by decide)).1
      (by constructor
          · exact Or.inl rfl
          · exact Or.inl rfl),
   (C3_neighbor_counts_and_symmetry 2 2).2 0 1 (by decide) (by decide)⟩

/-- C4: on every reachable grid, after `update()` completes every cell
satisfies `alive == currentState == nextState` — no pending transition
remains. -/
theorem C4_update_no_pending (g : Grid) (hg : Reachable g) :
    ∀ c ∈ (g.update).1.cells, c.alive = c.current_state ∧ c.current_state = c.next_state := by
  have hinv := Grid.update_gridInv g (reachable_good g hg).2
  intro c hc
  obtain ⟨h1, h2⟩ := hinv c hc
  exact ⟨h1, h2.symm⟩

/-- Witness for C4 at the 1×1 grid's only cell. -/
theorem C4_witness :
    (((Grid.new 1 1).update).1.cells.getD 0 default).alive =
      (((Grid.new 1 1).update).1.cells.getD 0 default).current_state ∧
    (((Grid.new 1 1).update).1.cells.getD 0 default).current_state =
      (((Grid.new 1 1).update).1.cells.getD 0 default).next_state :=
  C4_update_no_pending (Grid.new 1 1) (Reachable.new 1 1) _ (by decide)

/-- C5: on every grid built by `new(W, H)`, every index in any cell's
neighbour list is strictly below `W * H`, the length of the cell
collection — so every snapshot lookup in `update()` is in bounds and
the bounds-check failure (panic) branch is unreachable. -/
theorem C5_neighbor_indices_in_bounds (W H : ℕ) :
    ∀ c ∈ (Grid.new W H).cells, ∀ j ∈ c.neighbor_indices,
      j < (Grid.new W H).cells.length := by
  intro c hc j hj
  obtain ⟨i, hi⟩ := List.mem_iff_getElem?.mp hc
  have hlen : i < (Grid.new W H).cells.length := (List.getElem?_eq_some.mp hi).1
  rw [Grid.new_cells_length] at hlen
  rw [Grid.new_cells_getElem? W H i hlen] at hi
  obtain rfl : _ = c := Option.some_injective _ hi
  have hW0 : 0 < W := by
    rcases Nat.eq_zero_or_pos W with h | h
    · rw [h] at hlen; omega
    · exact h
  simp only at hj
  rw [Grid.new_cells_length]
  exact Grid.mem_nbrList_lt (i % W) (i / W) W H j
    (decode_lt_left i W hW0) (decode_lt_right i W H hlen) hj

/-- Witness for C5 on the 2×2 grid. -/
theorem C5_witness : 1 < (Grid.new 2 2).cells.length :=
  C5_neighbor_indices_in_bounds 2 2 ((Grid.new 2 2).cells.getD 0 default) (by decide) 1 (by decide)

/-- C6: a fresh grid has `generation = 0`; every `update()` increments
`generation` by exactly 1 and returns the post-increment value; and the
cells produced by `update()` do not depend on the counter (nor does the
counter's increment depend on any other field, the increment holding
for every grid whatever its cells). -/
theorem C6_generation_counter :
    (∀ W H : ℕ, (Grid.new W H).generation = 0) ∧
    (∀ g : Grid, (g.update).1.generation = g.generation + 1 ∧
      (g.update).2 = (g.update).1.generation) ∧
    (∀ (g : Grid) (n : ℕ),
      (({ g with generation := n } : Grid).update).1.cells = (g.update).1.cells) :=
  ⟨fun _ _ => rfl, fun _ => ⟨rfl, rfl⟩, fun _ _ => rfl⟩

/-- C7: on every reachable grid, `reset()` leaves every cell dead and
`generation = 0`, whatever the prior state; and `reset` is idempotent. -/
theorem C7_reset (g : Grid) (hg : Reachable g) :
    (∀ c ∈ g.reset.cells, c.alive = false) ∧
    g.reset.generation = 0 ∧
    g.reset.reset = g.reset := by
  obtain ⟨hcan, -⟩ := reachable_good g hg
  refine ⟨?_, rfl, ?_⟩
  · intro c hc
    obtain ⟨i, hi⟩ := List.mem_iff_getElem?.mp hc
    have hlen : i < g.reset.cells.length := (List.getElem?_eq_some.mp hi).1
    rw [Grid.reset_cells_length, hcan.1] at hlen
    rw [Grid.reset_cells_getElem?, if_pos hlen] at hi
    cases hcell : g.cells[i]? with
    | none => rw [hcell] at hi; exact absurd hi (by simp)
    | some c0 =>
      rw [hcell] at hi
      obtain rfl : _ = c := Option.some_injective _ hi
      rfl
  · refine grid_eq_of_fields _ _ rfl rfl rfl ?_
    apply List.ext_getElem?
    intro i
    rw [Grid.reset_cells_getElem? g.reset, Grid.reset_cells_getElem? g]
    have hdead : LifeCell.make_dead ∘ LifeCell.make_dead = LifeCell.make_dead :=
      funext fun c => LifeCell.make_dead_idem c
    by_cases hlt : i < g.x_cells * g.y_cells
    · have hlt' : i < g.reset.x_cells * g.reset.y_cells := hlt
      rw [if_pos hlt', if_pos hlt, Option.map_map, hdead]
    · have hlt' : ¬ i < g.reset.x_cells * g.reset.y_cells := hlt
      rw [if_neg hlt', if_neg hlt]

/-- Witness for C7 at the 1×1 grid. -/
theorem C7_witness :
    (((Grid.new 1 1).reset.cells.getD 0 default).alive = false) ∧
    (Grid.new 1 1).reset.generation = 0 ∧
    (Grid.new 1 1).reset.reset = (Grid.new 1 1).reset :=
  ⟨(C7_reset (Grid.new 1 1) (Reachable.new 1 1)).1 _ (by decide),
   (C7_reset (Grid.new 1 1) (Reachable.new 1 1)).2.1,
   (C7_reset (Grid.new 1 1) (Reachable.new 1 1)).2.2⟩

/-- C8 fails as stated: the code compares with `<=`, so the draw 0.0 —
a legal value of a uniform draw over `[0,1)` — satisfies
`draw ≤ 0.0` and makes the cell live under `randomize(0.0)`. -/
theorem C8_counterexample :
    ((0 : ℚ) ≤ 0 ∧ (0 : ℚ) < 1) ∧
    ¬ (∀ c ∈ ((Grid.new 1 1).randomize (fun _ => 0) 0).cells, c.alive = false) := by
  refine ⟨⟨le_refl 0, by norm_num⟩, ?_⟩
  intro h
  have := h (((Grid.new 1 1).randomize (fun _ => 0) 0).cells.getD 0 default) (by decide)
  revert this
  decide

/-- C8 (amended): for draw sequences taking values in the open
interval `(0,1)` — every draw strictly positive, which excludes only
the measure-zero draw 0.0 that the code's `<=` comparison turns live —
`randomize(0.0)` leaves every cell dead and `randomize(1.0)` makes
every cell live, and in both cases `generation = 0` afterwards because
`randomize` first performs a `reset`. -/
theorem C8_randomize_bounds (g : Grid) (hg : Reachable g) (r : ℕ → ℚ)
    (hr : ∀ k, 0 < r k ∧ r k < 1) :
    (∀ c ∈ (g.randomize r 0).cells, c.alive = false) ∧
    (g.randomize r 0).generation = 0 ∧
    (∀ c ∈ (g.randomize r 1).cells, c.alive = true) ∧
    (g.randomize r 1).generation = 0 := by
  obtain ⟨hcan, -⟩ := reachable_good g hg
  have hresetlen : (g.reset).cells.length = g.x_cells * g.y_cells := by
    rw [Grid.reset_cells_length, hcan.1]
  have hreset_dead : ∀ i, i < g.x_cells * g.y_cells →
      ∃ c0, (g.reset).cells[i]? = some c0 ∧ c0.alive = false := by
    intro i hi
    have hi' : i < g.cells.length := by rw [hcan.1]; exact hi
    obtain ⟨b, hb⟩ : ∃ b, g.cells[i]? = some b := ⟨g.cells[i], List.getElem?_eq_getElem hi'⟩
    exact ⟨b.make_dead, Grid.reset_cells_getElem?_some g i b hi hb, rfl⟩
  refine ⟨?_, rfl, ?_, rfl⟩
  · intro c hc
    obtain ⟨i, hi⟩ := List.mem_iff_getElem?.mp hc
    have hilen : i < g.x_cells * g.y_cells := by
      have := (List.getElem?_eq_some.mp hi).1
      rw [Grid.randomize_cells_length, hcan.1] at this
      exact this
    obtain ⟨c0, hc0, hdead⟩ := hreset_dead i hilen
    rw [Grid.randomize_cells_getElem?_some g r 0 i c0 hilen hc0] at hi
    obtain rfl : _ = c := Option.some_injective _ hi
    rw [if_neg (not_le.mpr (hr _).1)]
    exact hdead
  · intro c hc
    obtain ⟨i, hi⟩ := List.mem_iff_getElem?.mp hc
    have hilen : i < g.x_cells * g.y_cells := by
      have := (List.getElem?_eq_some.mp hi).1
      rw [Grid.randomize_cells_length, hcan.1] at this
      exact this
    obtain ⟨c0, hc0, -⟩ := hreset_dead i hilen
    rw [Grid.randomize_cells_getElem?_some g r 1 i c0 hilen hc0] at hi
    obtain rfl : _ = c := Option.some_injective _ hi
    rw [if_pos (le_of_lt (hr _).2)]
    rfl

/-- A draw value strictly inside `(0,1)`, written as an explicit
reduced fraction so that kernel evaluation does not need `Nat.gcd`. -/
def halfDraw : ℚ := ⟨1, 2, by decide, Nat.coprime_one_left 2⟩

theorem halfDraw_pos : 0 < halfDraw := by decide

theorem halfDraw_lt_one : halfDraw < 1 := by decide

/-- Witness for the amended C8 on the 1×1 grid with all draws 1/2. -/
theorem C8_witness :
    (((Grid.new 1 1).randomize (fun _ => halfDraw) 0).cells.getD 0 default).alive = false ∧
    ((Grid.new 1 1).randomize (fun _ => halfDraw) 0).generation = 0 ∧
    (((Grid.new 1 1).randomize (fun _ => halfDraw) 1).cells.getD 0 default).alive = true ∧
    ((Grid.new 1 1).randomize (fun _ => halfDraw) 1).generation = 0 :=
  ⟨(C8_randomize_bounds (Grid.new 1 1) (Reachable.new 1 1) (fun _ => halfDraw)
      (fun _ => ⟨halfDraw_pos, halfDraw_lt_one⟩)).1 _ (by decide),
   (C8_randomize_bounds (Grid.new 1 1) (Reachable.new 1 1) (fun _ => halfDraw)
      (fun _ => ⟨halfDraw_pos, halfDraw_lt_one⟩)).2.1,
   (C8_randomize_bounds (Grid.new 1 1) (Reachable.new 1 1) (fun _ => halfDraw)
      (fun _ => ⟨halfDraw_pos, halfDraw_lt_one⟩)).2.2.1 _ (by decide),
   (C8_randomize_bounds (Grid.new 1 1) (Reachable.new 1 1) (fun _ => halfDraw)
      (fun _ => ⟨halfDraw_pos, halfDraw_lt_one⟩)).2.2.2⟩

/-- C9: on every reachable grid of size at least 5×5 whose alive
configuration is exactly the horizontal 3-cell blinker centred at
`(width / 2, height / 2)`, two consecutive `update()` calls restore
the original configuration of `alive` values, and `generation`
increases by exactly 2. -/
theorem C9_blinker_oscillation (g : Grid) (hg : Reachable g)
    (hW : 5 ≤ g.x_cells) (hH : 5 ≤ g.y_cells)
    (hb : ∀ x, x < g.x_cells → ∀ y, y < g.y_cells →
      g.aliveAt x y = Grid.blinkerH g.x_cells g.y_cells x y) :
    (∀ x, x < g.x_cells → ∀ y, y < g.y_cells →
      (((g.update).1.update).1.aliveAt x y = g.aliveAt x y)) ∧
    ((g.update).1.update).1.generation = g.generation + 2 := by
  obtain ⟨hcan, hinv⟩ := reachable_good g hg
  have hcan1 := Grid.update_isCanonical g hcan
  have hinv1 := Grid.update_gridInv g hinv
  have h1 : ∀ x, x < g.x_cells → ∀ y, y < g.y_cells →
      (g.update).1.aliveAt x y = Grid.blinkerV g.x_cells g.y_cells x y := by
    intro x hx y hy
    rw [Grid.update_aliveAt g hcan hinv x y hx hy,
      Grid.nbrCount_congr g.x_cells g.y_cells g.aliveAt
        (Grid.blinkerH g.x_cells g.y_cells) x y hx hy (fun u v hu hv => hb u hu v hv),
      hb x hx y hy]
    exact Grid.blinker_step1 g.x_cells g.y_cells x y hW hH hx hy
  constructor
  · intro x hx y hy
    have hx1 : x < (g.update).1.x_cells := hx
    have hy1 : y < (g.update).1.y_cells := hy
    rw [Grid.update_aliveAt (g.update).1 hcan1 hinv1 x y hx1 hy1,
      Grid.nbrCount_congr (g.update).1.x_cells (g.update).1.y_cells (g.update).1.aliveAt
        (Grid.blinkerV g.x_cells g.y_cells) x y hx1 hy1 (fun u v hu hv => h1 u hu v hv),
      h1 x hx y hy, Grid.update_x_cells, Grid.update_y_cells,
      Grid.blinker_step2 g.x_cells g.y_cells x y hW hH hx hy, hb x hx y hy]
  · rfl

/-- The 5×5 blinker grid used as C9's witness. -/
def blinkerGrid5 : Grid :=
  (((Grid.new 5 5).make_live_at 11).make_live_at 12).make_live_at 13

/-- Witness for C9 on a concrete 5×5 grid. -/
theorem C9_witness :
    (∀ x, x < blinkerGrid5.x_cells → ∀ y, y < blinkerGrid5.y_cells →
      (((blinkerGrid5.update).1.update).1.aliveAt x y = blinkerGrid5.aliveAt x y)) ∧
    ((blinkerGrid5.update).1.update).1.generation = blinkerGrid5.generation + 2 :=
  C9_blinker_oscillation blinkerGrid5
    (Reachable.make_live_at _ 13 (Reachable.make_live_at _ 12
      (Reachable.make_live_at _ 11 (Reachable.new 5 5))))
    (by decide) (by decide) (by decide)

/-- C10: on every grid built by `new(W, H)`, no cell's neighbour list
contains a duplicate or the cell's own index; hence any live-neighbour
count computed from it inside `update()` is at most 8 and the `u8`
narrowing of that count never truncates. -/
theorem C10_neighbor_list_sound (W H : ℕ) (i : ℕ) (hi : i < (Grid.new W H).cells.length) :
    ((Grid.new W H).cells.getD i default).neighbor_indices.Nodup ∧
    i ∉ ((Grid.new W H).cells.getD i default).neighbor_indices ∧
    ((Grid.new W H).cells.getD i default).neighbor_indices.length ≤ 8 ∧
    (∀ snapshot : List Bool,
      (((Grid.new W H).cells.getD i default).neighbor_indices.filter
          (fun nidx => snapshot.getD nidx false)).length % 256 =
        (((Grid.new W H).cells.getD i default).neighbor_indices.filter
          (fun nidx => snapshot.getD nidx false)).length) := by
  rw [Grid.new_cells_length] at hi
  have hnbr : ((Grid.new W H).cells.getD i default).neighbor_indices =
      Grid.nbrList (i % W) (i / W) W H := by
    rw [List.getD_eq_getElem?_getD, Grid.new_cells_getElem? W H i hi]
    rfl
  have hW0 : 0 < W := by
    rcases Nat.eq_zero_or_pos W with h | h
    · rw [h] at hi; omega
    · exact h
  have hx : i % W < W := decode_lt_left i W hW0
  have hy : i / W < H := decode_lt_right i W H hi
  rw [hnbr]
  refine ⟨Grid.nbrList_nodup _ _ W H hx hy, ?_, Grid.nbrList_length_le_eight _ _ W H, ?_⟩
  · intro hmem
    apply Grid.self_not_mem_nbrList (i % W) (i / W) W H hx hy
    rw [decode_encode i W]
    exact hmem
  · intro snapshot
    have hle : (Grid.nbrList (i % W) (i / W) W H |>.filter
        (fun nidx => snapshot.getD nidx false)).length ≤ 8 :=
      le_trans (List.length_filter_le _ _) (Grid.nbrList_length_le_eight _ _ W H)
    exact Nat.mod_eq_of_lt (by omega)

/-- Witness for C10 at the interior cell of the 3×3 grid. -/
theorem C10_witness :
    ((Grid.new 3 3).cells.getD 4 default).neighbor_indices.Nodup ∧
    4 ∉ ((Grid.new 3 3).cells.getD 4 default).neighbor_indices ∧
    ((Grid.new 3 3).cells.getD 4 default).neighbor_indices.length ≤ 8 ∧
    (∀ snapshot : List Bool,
      (((Grid.new 3 3).cells.getD 4 default).neighbor_indices.filter
          (fun nidx => snapshot.getD nidx false)).length % 256 =
        (((Grid.new 3 3).cells.getD 4 default).neighbor_indices.filter
          (fun nidx => snapshot.getD nidx false)).length) :=
  C10_neighbor_list_sound 3 3 4 (by decide)
